import Mathlib

/-!
# Verification of the maze-generation engine (`maze.py`)

This file gives a shallow embedding of the maze generator of `maze.py`
(class `Maze`: `__init__` and `generate`) and proves the specification
claims about it.

The embedding:

* The physical grid is a `List (List Char)` indexed `grid[y][x]`, exactly
  as in the source; the cell-state characters `WALL`, `PATH`, `START`,
  `END` are the source's characters.
* `Maze.init` embeds `Maze.__init__`.  The source performs no validation
  and no operation that can raise, so the embedding is a total function.
* `Maze.generate`'s `while` loop is embedded as an iterated step function
  `genStep` (one iteration of the loop body).  Randomness is embedded by a
  choice sequence `seq : Nat → Nat`: the `t`-th call of `random.choice` on
  a candidate list of length `n` returns the element at index
  `seq t % n`, covering every possible sequence of random choices.
* The generation state `GenState` carries the mutable state of the loop
  (`grid`, `stack`, `visited`) plus ghost instrumentation that changes no
  behaviour: the list of carved passages `edges` (each recorded as the
  pair (current cell, chosen cell) in grid coordinates), the push/pop
  logs `pushes`/`pops`, the counters `snaps` (number of animation
  snapshots emitted by `self.display()`), `visitSteps`, `backSteps`, the
  number `t` of random draws consumed, and a flag `err` that records
  whether any grid write was out of bounds (the source would raise
  `IndexError` there; in every run proved below `err` stays `false`).
* Python's `//` on the values appearing in the source (`dx // 2` for
  `dx ∈ {-2, 0, 2}`) agrees with Lean's `Int` division, which is
  Euclidean division (floor division for positive divisors).
-/

/-- Wall character `WALL = '█'` of the source. -/
def WALL : Char := '█'

/-- Path character `PATH = ' '` of the source. -/
def PATH : Char := ' '

/-- Start marker `START = 'S'` of the source. -/
def START : Char := 'S'

/-- End marker `END = 'E'` of the source. -/
def ENDC : Char := 'E'

/-- Read grid position `(x, y)` of a row-major grid, `grid[y][x]`.
Out-of-range reads return `WALL` (the generator never reads the grid;
this accessor is used only to state properties). -/
def gridGet (g : List (List Char)) (x y : Int) : Char :=
  (g.getD y.toNat []).getD x.toNat WALL

/-- Write grid position `(x, y)` of a row-major grid: `grid[y][x] = c`. -/
def gridSet (g : List (List Char)) (x y : Int) (c : Char) : List (List Char) :=
  g.set y.toNat ((g.getD y.toNat []).set x.toNat c)

/-- The `Maze` object: fields set by `Maze.__init__`. -/
structure Maze where
  width : Int
  height : Int
  grid_w : Int
  grid_h : Int
  grid : List (List Char)
  start : Int × Int
  endp : Int × Int

/-- Embeds `Maze.__init__(self, width, height)`:
`grid_w = width * 2 + 1`, `grid_h = height * 2 + 1`, the grid is
all-`WALL` of size `grid_h × grid_w`, `start = (1, 1)`,
`end = (grid_w - 2, grid_h - 2)`.  The source contains no validation and
no failing operation (a Python list replicated a negative number of times
is empty), so construction is total. -/
def Maze.init (width height : Int) : Maze :=
  let grid_w := width * 2 + 1
  let grid_h := height * 2 + 1
  { width := width
    height := height
    grid_w := grid_w
    grid_h := grid_h
    grid := List.replicate grid_h.toNat (List.replicate grid_w.toNat WALL)
    start := (1, 1)
    endp := (grid_w - 2, grid_h - 2) }

/-- The state of `Maze.generate`'s loop, plus ghost instrumentation. -/
structure GenState where
  grid : List (List Char)
  stack : List (Int × Int)
  visited : List (Int × Int)
  /-- ghost: carved passages, newest first, as (current, chosen) pairs -/
  edges : List ((Int × Int) × (Int × Int))
  /-- ghost: cells pushed on the stack, newest first -/
  pushes : List (Int × Int)
  /-- ghost: cells popped from the stack, newest first -/
  pops : List (Int × Int)
  /-- ghost: number of `self.display()` snapshot emissions -/
  snaps : Nat
  /-- ghost: number of visit steps executed -/
  visitSteps : Nat
  /-- ghost: number of backtrack steps executed -/
  backSteps : Nat
  /-- ghost: number of random draws consumed -/
  t : Nat
  /-- ghost: true iff some grid write was out of bounds -/
  err : Bool

/-- `0 ≤ x < gw` and `0 ≤ y < gh`. -/
def inBoundsB (gw gh x y : Int) : Bool :=
  decide (0 ≤ x) && decide (x < gw) && decide (0 ≤ y) && decide (y < gh)

/-- Perform the grid write `self.grid[y][x] = c`.  In-bounds writes update
the grid; an out-of-bounds write (where the source would raise
`IndexError`) sets the ghost flag `err`. -/
def writeCell (gw gh : Int) (s : GenState) (x y : Int) (c : Char) : GenState :=
  if inBoundsB gw gh x y then { s with grid := gridSet s.grid x y c }
  else { s with err := true }

/-- The direction list `[(0, -2), (0, 2), (-2, 0), (2, 0)]` of the source. -/
def directions : List (Int × Int) := [(0, -2), (0, 2), (-2, 0), (2, 0)]

/-- The unvisited-neighbor scan of the loop body: for each `(dx, dy)` in
`directions`, keep `(nx, ny, dx // 2, dy // 2)` when
`1 ≤ nx < grid_w - 1`, `1 ≤ ny < grid_h - 1` and `(nx, ny)` unvisited. -/
def neighborsOf (gw gh : Int) (visited : List (Int × Int)) (x y : Int) :
    List (Int × Int × Int × Int) :=
  directions.filterMap fun d =>
    if 1 ≤ x + d.1 ∧ x + d.1 < gw - 1 ∧ 1 ≤ y + d.2 ∧ y + d.2 < gh - 1 ∧
        (x + d.1, y + d.2) ∉ visited
    then some (x + d.1, y + d.2, d.1 / 2, d.2 / 2) else none

/-- One iteration of the `while stack:` loop body of `Maze.generate`.
On an empty stack it is the identity (the loop has exited). -/
def genStep (gw gh : Int) (animate : Bool) (seq : Nat → Nat) (s : GenState) :
    GenState :=
  match s.stack with
  | [] => s
  | (x, y) :: rest =>
    match neighborsOf gw gh s.visited x y with
    | [] =>
      -- backtrack step: `stack.pop()`
      { s with stack := rest
               pops := (x, y) :: s.pops
               backSteps := s.backSteps + 1 }
    | nb :: _ =>
      -- visit step
      let nbl := neighborsOf gw gh s.visited x y
      let chosen := nbl.getD (seq s.t % nbl.length) nb
      let nx := chosen.1
      let ny := chosen.2.1
      let wx := chosen.2.2.1
      let wy := chosen.2.2.2
      -- `self.grid[y + wy][x + wx] = PATH`
      let s1 := writeCell gw gh s (x + wx) (y + wy) PATH
      -- `self.grid[ny][nx] = PATH`
      let s2 := writeCell gw gh s1 nx ny PATH
      { s2 with visited := (nx, ny) :: s2.visited
                stack := (nx, ny) :: s2.stack
                edges := ((x, y), (nx, ny)) :: s2.edges
                pushes := (nx, ny) :: s2.pushes
                visitSteps := s2.visitSteps + 1
                snaps := if animate then s2.snaps + 1 else s2.snaps
                t := s2.t + 1 }

/-- Iterate `genStep` `n` times. -/
def genIter (gw gh : Int) (animate : Bool) (seq : Nat → Nat) :
    Nat → GenState → GenState
  | 0, s => s
  | n + 1, s => genIter gw gh animate seq n (genStep gw gh animate seq s)

/-- The state at the top of `Maze.generate`, after
`stack = [(1, 1)]; visited = {(1, 1)}; self.grid[1][1] = PATH`. -/
def genStart (m : Maze) : GenState :=
  writeCell m.grid_w m.grid_h
    { grid := m.grid
      stack := [(1, 1)]
      visited := [(1, 1)]
      edges := []
      pushes := [(1, 1)]
      pops := []
      snaps := 0
      visitSteps := 0
      backSteps := 0
      t := 0
      err := false } 1 1 PATH

/-- The endpoint-marking epilogue of `Maze.generate`:
`self.grid[1][1] = START` and then
`self.grid[self.grid_h - 2][self.grid_w - 2] = END`. -/
def markEnds (m : Maze) (s : GenState) : GenState :=
  let s1 := writeCell m.grid_w m.grid_h s 1 1 START
  writeCell m.grid_w m.grid_h s1 (m.grid_w - 2) (m.grid_h - 2) ENDC

/-- An iteration budget certainly larger than the number of loop
iterations (each iteration either pops the stack or shrinks the unvisited
in-range region, see `stepMeasure_genStep_lt`). -/
def genFuel (w h : Int) : Nat := 2 * ((2 * w - 1) * (2 * h - 1)).toNat + 2

/-- Embeds `Maze.generate(self, animate)`: run the carving loop to
completion, then mark the endpoints. -/
def Maze.generate (m : Maze) (seq : Nat → Nat) (animate : Bool) : GenState :=
  markEnds m
    (genIter m.grid_w m.grid_h animate seq (genFuel m.width m.height) (genStart m))

/-- Construct a `width × height` maze and generate it. -/
def mazeRun (w h : Int) (seq : Nat → Nat) (animate : Bool) : GenState :=
  (Maze.init w h).generate seq animate

/-! ## Logical-cell geometry (specification side) -/

/-- `p` is a logical-cell position of the `(gw, gh)` grid: both
coordinates odd and inside the grid border. -/
def cellPos (gw gh : Int) (p : Int × Int) : Prop :=
  p.1 % 2 = 1 ∧ p.2 % 2 = 1 ∧ 1 ≤ p.1 ∧ p.1 ≤ gw - 2 ∧ 1 ≤ p.2 ∧ p.2 ≤ gh - 2

instance (gw gh : Int) (p : Int × Int) : Decidable (cellPos gw gh p) := by
  unfold cellPos; infer_instance

/-- Two logical-cell positions are grid-adjacent: equal in one coordinate
and at distance 2 in the other. -/
def adjCells (a b : Int × Int) : Prop :=
  (a.1 = b.1 ∧ (a.2 = b.2 + 2 ∨ b.2 = a.2 + 2)) ∨
  (a.2 = b.2 ∧ (a.1 = b.1 + 2 ∨ b.1 = a.1 + 2))

instance (a b : Int × Int) : Decidable (adjCells a b) := by
  unfold adjCells; infer_instance

/-- The wall slot between two adjacent logical-cell positions. -/
def mid (a b : Int × Int) : Int × Int := ((a.1 + b.1) / 2, (a.2 + b.2) / 2)

/-- All interior grid positions `1 ≤ x ≤ 2w - 1`, `1 ≤ y ≤ 2h - 1`. -/
def rangeList (w h : Int) : List (Int × Int) :=
  (List.range (2 * w - 1).toNat).flatMap fun i =>
    (List.range (2 * h - 1).toNat).map fun j => (Int.ofNat i + 1, Int.ofNat j + 1)

/-- All logical-cell positions in grid coordinates,
`(2 cx + 1, 2 cy + 1)` for `0 ≤ cx < w`, `0 ≤ cy < h`. -/
def cellList (w h : Int) : List (Int × Int) :=
  (List.range w.toNat).flatMap fun cx =>
    (List.range h.toNat).map fun cy => (2 * Int.ofNat cx + 1, 2 * Int.ofNat cy + 1)

/-- A wall slot lying between two horizontally or vertically adjacent
logical cells: interior position with exactly one odd coordinate. -/
def midSlot (gw gh : Int) (p : Int × Int) : Prop :=
  1 ≤ p.1 ∧ p.1 ≤ gw - 2 ∧ 1 ≤ p.2 ∧ p.2 ≤ gh - 2 ∧
  ((p.1 % 2 = 1 ∧ p.2 % 2 = 0) ∨ (p.1 % 2 = 0 ∧ p.2 % 2 = 1))

instance (gw gh : Int) (p : Int × Int) : Decidable (midSlot gw gh p) := by
  unfold midSlot; infer_instance

/-- The number of carved passages between distinct logical cells: grid
positions lying between two adjacent logical cells that hold `PATH`. -/
def passageCount (w h : Int) (g : List (List Char)) : Nat :=
  ((rangeList w h).filter fun p =>
    decide (midSlot (w * 2 + 1) (h * 2 + 1) p) && decide (gridGet g p.1 p.2 = PATH)).length

/-- The loop measure: twice the number of unvisited interior positions
plus the stack height.  Each loop iteration strictly decreases it. -/
def stepMeasure (w h : Int) (s : GenState) : Nat :=
  2 * ((rangeList w h).filter fun p => decide (p ∉ s.visited)).length + s.stack.length

/-! ## Basic field lemmas -/

@[simp] lemma Maze.init_width (w h : Int) : (Maze.init w h).width = w := rfl
@[simp] lemma Maze.init_height (w h : Int) : (Maze.init w h).height = h := rfl
@[simp] lemma Maze.init_grid_w (w h : Int) : (Maze.init w h).grid_w = w * 2 + 1 := rfl
@[simp] lemma Maze.init_grid_h (w h : Int) : (Maze.init w h).grid_h = h * 2 + 1 := rfl
@[simp] lemma Maze.init_start (w h : Int) : (Maze.init w h).start = (1, 1) := rfl
@[simp] lemma Maze.init_endp (w h : Int) :
    (Maze.init w h).endp = (w * 2 + 1 - 2, h * 2 + 1 - 2) := rfl
@[simp] lemma Maze.init_grid (w h : Int) :
    (Maze.init w h).grid =
      List.replicate (h * 2 + 1).toNat (List.replicate (w * 2 + 1).toNat WALL) := rfl

@[simp] lemma writeCell_stack (gw gh : Int) (s : GenState) (x y : Int) (c : Char) :
    (writeCell gw gh s x y c).stack = s.stack := by
  unfold writeCell; split <;> rfl

@[simp] lemma writeCell_visited (gw gh : Int) (s : GenState) (x y : Int) (c : Char) :
    (writeCell gw gh s x y c).visited = s.visited := by
  unfold writeCell; split <;> rfl

@[simp] lemma writeCell_edges (gw gh : Int) (s : GenState) (x y : Int) (c : Char) :
    (writeCell gw gh s x y c).edges = s.edges := by
  unfold writeCell; split <;> rfl

@[simp] lemma writeCell_pushes (gw gh : Int) (s : GenState) (x y : Int) (c : Char) :
    (writeCell gw gh s x y c).pushes = s.pushes := by
  unfold writeCell; split <;> rfl

@[simp] lemma writeCell_pops (gw gh : Int) (s : GenState) (x y : Int) (c : Char) :
    (writeCell gw gh s x y c).pops = s.pops := by
  unfold writeCell; split <;> rfl

@[simp] lemma writeCell_snaps (gw gh : Int) (s : GenState) (x y : Int) (c : Char) :
    (writeCell gw gh s x y c).snaps = s.snaps := by
  unfold writeCell; split <;> rfl

@[simp] lemma writeCell_visitSteps (gw gh : Int) (s : GenState) (x y : Int) (c : Char) :
    (writeCell gw gh s x y c).visitSteps = s.visitSteps := by
  unfold writeCell; split <;> rfl

@[simp] lemma writeCell_backSteps (gw gh : Int) (s : GenState) (x y : Int) (c : Char) :
    (writeCell gw gh s x y c).backSteps = s.backSteps := by
  unfold writeCell; split <;> rfl

@[simp] lemma writeCell_t (gw gh : Int) (s : GenState) (x y : Int) (c : Char) :
    (writeCell gw gh s x y c).t = s.t := by
  unfold writeCell; split <;> rfl

lemma writeCell_grid_of_inBounds (gw gh : Int) (s : GenState) (x y : Int) (c : Char)
    (h : inBoundsB gw gh x y = true) :
    (writeCell gw gh s x y c).grid = gridSet s.grid x y c := by
  unfold writeCell; rw [if_pos h]

lemma writeCell_err_of_inBounds (gw gh : Int) (s : GenState) (x y : Int) (c : Char)
    (h : inBoundsB gw gh x y = true) :
    (writeCell gw gh s x y c).err = s.err := by
  unfold writeCell; rw [if_pos h]

lemma inBoundsB_iff (gw gh x y : Int) :
    inBoundsB gw gh x y = true ↔ 0 ≤ x ∧ x < gw ∧ 0 ≤ y ∧ y < gh := by
  unfold inBoundsB
  simp [Bool.and_eq_true, and_assoc]

/-! ## Grid read/write lemmas -/

/-- The grid has `gh` rows of length `gw` each. -/
def GridShape (gw gh : Int) (g : List (List Char)) : Prop :=
  g.length = gh.toNat ∧ ∀ r ∈ g, r.length = gw.toNat

lemma GridShape.replicate (gw gh : Int) :
    GridShape gw gh (List.replicate gh.toNat (List.replicate gw.toNat WALL)) := by
  constructor
  · simp
  · intro r hr
    rw [List.eq_of_mem_replicate hr]
    simp

lemma getD_mem_of_lt {α : Type} {l : List α} {n : Nat} {d : α} (h : n < l.length) :
    l.getD n d ∈ l := by
  rw [List.getD_eq_getElem?_getD, List.getElem?_eq_getElem h, Option.getD_some]
  exact List.getElem_mem h

lemma gridShape_set {gw gh : Int} {g : List (List Char)} (hs : GridShape gw gh g)
    (x y : Int) (c : Char) : GridShape gw gh (gridSet g x y c) := by
  obtain ⟨h1, h2⟩ := hs
  by_cases hy : y.toNat < g.length
  · constructor
    · simp [gridSet, h1]
    · intro r hr
      rcases List.mem_or_eq_of_mem_set hr with hmem | rfl
      · exact h2 r hmem
      · rw [List.length_set]
        exact h2 _ (getD_mem_of_lt hy)
  · have : gridSet g x y c = g := by
      unfold gridSet
      exact List.set_eq_of_length_le (by omega)
    rw [this]
    exact ⟨h1, h2⟩

lemma gridGet_set_self {gw gh : Int} {g : List (List Char)} (hs : GridShape gw gh g)
    {x y : Int} (hx0 : 0 ≤ x) (hx1 : x < gw) (hy0 : 0 ≤ y) (hy1 : y < gh) (c : Char) :
    gridGet (gridSet g x y c) x y = c := by
  obtain ⟨h1, h2⟩ := hs
  have hylen : y.toNat < g.length := by omega
  have hrow : (g.getD y.toNat []).length = gw.toNat := h2 _ (getD_mem_of_lt hylen)
  have hxlen : x.toNat < (g.getD y.toNat []).length := by omega
  unfold gridGet gridSet
  set row := g.getD y.toNat [] with hrowdef
  have step1 : (g.set y.toNat (row.set x.toNat c)).getD y.toNat [] = row.set x.toNat c := by
    rw [List.getD_eq_getElem?_getD, List.getElem?_set_self hylen, Option.getD_some]
  rw [step1, List.getD_eq_getElem?_getD, List.getElem?_set_self hxlen, Option.getD_some]

lemma gridGet_set_ne {g : List (List Char)}
    {x y : Int} (hx1 : 1 ≤ x) (hy1 : 1 ≤ y) (c : Char) {a b : Int}
    (hne : (a, b) ≠ (x, y)) :
    gridGet (gridSet g x y c) a b = gridGet g a b := by
  unfold gridGet gridSet
  set row := g.getD y.toNat [] with hrowdef
  by_cases hb : b.toNat = y.toNat
  · have hby : b = y := by omega
    have hax : a.toNat ≠ x.toNat := by
      simp only [ne_eq, Prod.mk.injEq, not_and] at hne
      have := hne
      omega
    by_cases hylen : y.toNat < g.length
    · have step1 : (g.set y.toNat (row.set x.toNat c)).getD b.toNat [] = row.set x.toNat c := by
        rw [hb, List.getD_eq_getElem?_getD, List.getElem?_set_self hylen, Option.getD_some]
      rw [step1, List.getD_eq_getElem?_getD, List.getElem?_set_ne (by omega),
        ← List.getD_eq_getElem?_getD, hb]
    · rw [List.set_eq_of_length_le (by omega)]
  · have step1 : (g.set y.toNat (row.set x.toNat c)).getD b.toNat [] = g.getD b.toNat [] := by
      rw [List.getD_eq_getElem?_getD, List.getElem?_set_ne (by omega),
        ← List.getD_eq_getElem?_getD]
    rw [step1]


/-! ## Step equation lemmas -/

lemma genStep_of_stack_nil {gw gh : Int} {animate : Bool} {seq : Nat → Nat} {s : GenState}
    (hs : s.stack = []) : genStep gw gh animate seq s = s := by
  unfold genStep
  rw [hs]

lemma genStep_backtrack {gw gh : Int} {animate : Bool} {seq : Nat → Nat} {s : GenState}
    {x y : Int} {rest : List (Int × Int)}
    (hs : s.stack = (x, y) :: rest) (hn : neighborsOf gw gh s.visited x y = []) :
    genStep gw gh animate seq s =
      { s with stack := rest
               pops := (x, y) :: s.pops
               backSteps := s.backSteps + 1 } := by
  unfold genStep
  split
  · rename_i heq
    rw [hs] at heq
    exact absurd heq (by simp)
  · rename_i x' y' rest' heq
    rw [hs] at heq
    obtain ⟨rfl, rfl, rfl⟩ : x = x' ∧ y = y' ∧ rest = rest' := by
      rw [List.cons.injEq, Prod.mk.injEq] at heq
      exact ⟨heq.1.1, heq.1.2, heq.2⟩
    split
    · rfl
    · rename_i nb tl heq2
      rw [hn] at heq2
      exact absurd heq2.symm (by simp)

lemma genStep_visit {gw gh : Int} {animate : Bool} {seq : Nat → Nat} {s : GenState}
    {x y : Int} {rest : List (Int × Int)} {nb : Int × Int × Int × Int}
    {tl : List (Int × Int × Int × Int)}
    (hs : s.stack = (x, y) :: rest) (hn : neighborsOf gw gh s.visited x y = nb :: tl) :
    genStep gw gh animate seq s =
      (let chosen := (nb :: tl).getD (seq s.t % (nb :: tl).length) nb
       let s2 := writeCell gw gh
         (writeCell gw gh s (x + chosen.2.2.1) (y + chosen.2.2.2) PATH)
         chosen.1 chosen.2.1 PATH
       { s2 with visited := (chosen.1, chosen.2.1) :: s.visited
                 stack := (chosen.1, chosen.2.1) :: s.stack
                 edges := ((x, y), (chosen.1, chosen.2.1)) :: s.edges
                 pushes := (chosen.1, chosen.2.1) :: s.pushes
                 visitSteps := s.visitSteps + 1
                 snaps := if animate then s.snaps + 1 else s.snaps
                 t := s.t + 1 }) := by
  unfold genStep
  split
  · rename_i heq
    rw [hs] at heq
    exact absurd heq (by simp)
  · rename_i x' y' rest' heq
    rw [hs] at heq
    obtain ⟨rfl, rfl, rfl⟩ : x = x' ∧ y = y' ∧ rest = rest' := by
      rw [List.cons.injEq, Prod.mk.injEq] at heq
      exact ⟨heq.1.1, heq.1.2, heq.2⟩
    split
    · rename_i heq2
      rw [hn] at heq2
      exact absurd heq2 (by simp)
    · rename_i nb' tl' heq2
      rw [hn] at heq2
      obtain ⟨rfl, rfl⟩ : nb = nb' ∧ tl = tl' := by
        rw [List.cons.injEq] at heq2
        exact ⟨heq2.1, heq2.2⟩
      rw [hn, hs]
      simp only [writeCell_visited, writeCell_pushes, writeCell_snaps, writeCell_visitSteps,
        writeCell_t, writeCell_stack, writeCell_edges]
      rw [hs]

/-! ## Neighbor-scan characterization -/

lemma mem_neighborsOf {gw gh x y : Int} {v : List (Int × Int)} {nx ny wx wy : Int} :
    (nx, ny, wx, wy) ∈ neighborsOf gw gh v x y ↔
    (1 ≤ nx ∧ nx < gw - 1 ∧ 1 ≤ ny ∧ ny < gh - 1 ∧ (nx, ny) ∉ v ∧
      ((nx = x ∧ ny = y - 2 ∧ wx = 0 ∧ wy = -1) ∨
       (nx = x ∧ ny = y + 2 ∧ wx = 0 ∧ wy = 1) ∨
       (nx = x - 2 ∧ ny = y ∧ wx = -1 ∧ wy = 0) ∨
       (nx = x + 2 ∧ ny = y ∧ wx = 1 ∧ wy = 0))) := by
  constructor
  · intro h
    rw [neighborsOf, List.mem_filterMap] at h
    obtain ⟨d, hd, hsome⟩ := h
    rw [directions] at hd
    have hcases : d = ((0 : Int), (-2 : Int)) ∨ d = ((0 : Int), (2 : Int)) ∨
        d = ((-2 : Int), (0 : Int)) ∨ d = ((2 : Int), (0 : Int)) := by
      simpa using hd
    rcases hcases with rfl | rfl | rfl | rfl
    · split at hsome
      · rename_i hcond
        rw [Option.some.injEq, Prod.mk.injEq, Prod.mk.injEq, Prod.mk.injEq] at hsome
        obtain ⟨e1, e2, e3, e4⟩ := hsome
        obtain ⟨hc1, hc2, hc3, hc4, hc5⟩ := hcond
        have b1 : 1 ≤ x + 0 := hc1
        have b2 : x + 0 < gw - 1 := hc2
        have b3 : 1 ≤ y + -2 := hc3
        have b4 : y + -2 < gh - 1 := hc4
        have b5 : (x + 0, y + -2) ∉ v := hc5
        have f1 : x + 0 = nx := e1
        have f2 : y + -2 = ny := e2
        have f3 : (0 : Int) / 2 = wx := e3
        have f4 : (-2 : Int) / 2 = wy := e4
        refine ⟨by omega, by omega, by omega, by omega, ?_,
          Or.inl ⟨by omega, by omega, by omega, by omega⟩⟩
        rw [← f1, ← f2]
        exact b5
      · exact absurd hsome.symm (by simp)
    · split at hsome
      · rename_i hcond
        rw [Option.some.injEq, Prod.mk.injEq, Prod.mk.injEq, Prod.mk.injEq] at hsome
        obtain ⟨e1, e2, e3, e4⟩ := hsome
        obtain ⟨hc1, hc2, hc3, hc4, hc5⟩ := hcond
        have b1 : 1 ≤ x + 0 := hc1
        have b2 : x + 0 < gw - 1 := hc2
        have b3 : 1 ≤ y + 2 := hc3
        have b4 : y + 2 < gh - 1 := hc4
        have b5 : (x + 0, y + 2) ∉ v := hc5
        have f1 : x + 0 = nx := e1
        have f2 : y + 2 = ny := e2
        have f3 : (0 : Int) / 2 = wx := e3
        have f4 : (2 : Int) / 2 = wy := e4
        refine ⟨by omega, by omega, by omega, by omega, ?_,
          Or.inr (Or.inl ⟨by omega, by omega, by omega, by omega⟩)⟩
        rw [← f1, ← f2]
        exact b5
      · exact absurd hsome.symm (by simp)
    · split at hsome
      · rename_i hcond
        rw [Option.some.injEq, Prod.mk.injEq, Prod.mk.injEq, Prod.mk.injEq] at hsome
        obtain ⟨e1, e2, e3, e4⟩ := hsome
        obtain ⟨hc1, hc2, hc3, hc4, hc5⟩ := hcond
        have b1 : 1 ≤ x + -2 := hc1
        have b2 : x + -2 < gw - 1 := hc2
        have b3 : 1 ≤ y + 0 := hc3
        have b4 : y + 0 < gh - 1 := hc4
        have b5 : (x + -2, y + 0) ∉ v := hc5
        have f1 : x + -2 = nx := e1
        have f2 : y + 0 = ny := e2
        have f3 : (-2 : Int) / 2 = wx := e3
        have f4 : (0 : Int) / 2 = wy := e4
        refine ⟨by omega, by omega, by omega, by omega, ?_,
          Or.inr (Or.inr (Or.inl ⟨by omega, by omega, by omega, by omega⟩))⟩
        rw [← f1, ← f2]
        exact b5
      · exact absurd hsome.symm (by simp)
    · split at hsome
      · rename_i hcond
        rw [Option.some.injEq, Prod.mk.injEq, Prod.mk.injEq, Prod.mk.injEq] at hsome
        obtain ⟨e1, e2, e3, e4⟩ := hsome
        obtain ⟨hc1, hc2, hc3, hc4, hc5⟩ := hcond
        have b1 : 1 ≤ x + 2 := hc1
        have b2 : x + 2 < gw - 1 := hc2
        have b3 : 1 ≤ y + 0 := hc3
        have b4 : y + 0 < gh - 1 := hc4
        have b5 : (x + 2, y + 0) ∉ v := hc5
        have f1 : x + 2 = nx := e1
        have f2 : y + 0 = ny := e2
        have f3 : (2 : Int) / 2 = wx := e3
        have f4 : (0 : Int) / 2 = wy := e4
        refine ⟨by omega, by omega, by omega, by omega, ?_,
          Or.inr (Or.inr (Or.inr ⟨by omega, by omega, by omega, by omega⟩))⟩
        rw [← f1, ← f2]
        exact b5
      · exact absurd hsome.symm (by simp)
  · rintro ⟨h1, h2, h3, h4, h5, hd⟩
    rw [neighborsOf, List.mem_filterMap]
    rcases hd with ⟨hq1, hq2, hq3, hq4⟩ | ⟨hq1, hq2, hq3, hq4⟩ |
      ⟨hq1, hq2, hq3, hq4⟩ | ⟨hq1, hq2, hq3, hq4⟩
    · refine ⟨((0 : Int), (-2 : Int)), by rw [directions]; simp, ?_⟩
      rw [if_pos]
      · show some (x + 0, y + -2, 0 / 2, -2 / 2) = some (nx, ny, wx, wy)
        rw [Option.some.injEq, Prod.mk.injEq, Prod.mk.injEq, Prod.mk.injEq]
        refine ⟨by omega, by omega, by omega, by omega⟩
      · show 1 ≤ x + 0 ∧ x + 0 < gw - 1 ∧ 1 ≤ y + -2 ∧ y + -2 < gh - 1 ∧ (x + 0, y + -2) ∉ v
        have hp : ((x + 0 : Int), (y + -2 : Int)) = (nx, ny) := by
          rw [Prod.mk.injEq]
          constructor <;> omega
        exact ⟨by omega, by omega, by omega, by omega, by rw [hp]; exact h5⟩
    · refine ⟨((0 : Int), (2 : Int)), by rw [directions]; simp, ?_⟩
      rw [if_pos]
      · show some (x + 0, y + 2, 0 / 2, 2 / 2) = some (nx, ny, wx, wy)
        rw [Option.some.injEq, Prod.mk.injEq, Prod.mk.injEq, Prod.mk.injEq]
        refine ⟨by omega, by omega, by omega, by omega⟩
      · show 1 ≤ x + 0 ∧ x + 0 < gw - 1 ∧ 1 ≤ y + 2 ∧ y + 2 < gh - 1 ∧ (x + 0, y + 2) ∉ v
        have hp : ((x + 0 : Int), (y + 2 : Int)) = (nx, ny) := by
          rw [Prod.mk.injEq]
          constructor <;> omega
        exact ⟨by omega, by omega, by omega, by omega, by rw [hp]; exact h5⟩
    · refine ⟨((-2 : Int), (0 : Int)), by rw [directions]; simp, ?_⟩
      rw [if_pos]
      · show some (x + -2, y + 0, -2 / 2, 0 / 2) = some (nx, ny, wx, wy)
        rw [Option.some.injEq, Prod.mk.injEq, Prod.mk.injEq, Prod.mk.injEq]
        refine ⟨by omega, by omega, by omega, by omega⟩
      · show 1 ≤ x + -2 ∧ x + -2 < gw - 1 ∧ 1 ≤ y + 0 ∧ y + 0 < gh - 1 ∧ (x + -2, y + 0) ∉ v
        have hp : ((x + -2 : Int), (y + 0 : Int)) = (nx, ny) := by
          rw [Prod.mk.injEq]
          constructor <;> omega
        exact ⟨by omega, by omega, by omega, by omega, by rw [hp]; exact h5⟩
    · refine ⟨((2 : Int), (0 : Int)), by rw [directions]; simp, ?_⟩
      rw [if_pos]
      · show some (x + 2, y + 0, 2 / 2, 0 / 2) = some (nx, ny, wx, wy)
        rw [Option.some.injEq, Prod.mk.injEq, Prod.mk.injEq, Prod.mk.injEq]
        refine ⟨by omega, by omega, by omega, by omega⟩
      · show 1 ≤ x + 2 ∧ x + 2 < gw - 1 ∧ 1 ≤ y + 0 ∧ y + 0 < gh - 1 ∧ (x + 2, y + 0) ∉ v
        have hp : ((x + 2 : Int), (y + 0 : Int)) = (nx, ny) := by
          rw [Prod.mk.injEq]
          constructor <;> omega
        exact ⟨by omega, by omega, by omega, by omega, by rw [hp]; exact h5⟩

/-! ## Geometry lemmas -/

lemma getD_mem_cons {α : Type} (nb : α) (tl : List α) (i : Nat) :
    (nb :: tl).getD i nb ∈ nb :: tl := by
  by_cases h : i < (nb :: tl).length
  · rw [List.getD_eq_getElem?_getD, List.getElem?_eq_getElem h, Option.getD_some]
    exact List.getElem_mem h
  · rw [List.getD_eq_getElem?_getD, List.getElem?_eq_none (by omega), Option.getD_none]
    exact List.mem_cons_self nb tl

/-- The 4-way direction disjunction produced by `mem_neighborsOf`. -/
def DirRel (x y nx ny wx wy : Int) : Prop :=
  (nx = x ∧ ny = y - 2 ∧ wx = 0 ∧ wy = -1) ∨
  (nx = x ∧ ny = y + 2 ∧ wx = 0 ∧ wy = 1) ∨
  (nx = x - 2 ∧ ny = y ∧ wx = -1 ∧ wy = 0) ∨
  (nx = x + 2 ∧ ny = y ∧ wx = 1 ∧ wy = 0)

lemma wall_eq_mid {x y nx ny wx wy : Int} (hd : DirRel x y nx ny wx wy) :
    (x + wx, y + wy) = mid (x, y) (nx, ny) := by
  show (x + wx, y + wy) = ((x + nx) / 2, (y + ny) / 2)
  rw [Prod.mk.injEq]
  rcases hd with ⟨h1, h2, h3, h4⟩ | ⟨h1, h2, h3, h4⟩ | ⟨h1, h2, h3, h4⟩ | ⟨h1, h2, h3, h4⟩ <;>
    constructor <;> omega

lemma adjCells_of_dirRel {x y nx ny wx wy : Int} (hd : DirRel x y nx ny wx wy) :
    adjCells (x, y) (nx, ny) := by
  show (x = nx ∧ (y = ny + 2 ∨ ny = y + 2)) ∨ (y = ny ∧ (x = nx + 2 ∨ nx = x + 2))
  rcases hd with ⟨h1, h2, h3, h4⟩ | ⟨h1, h2, h3, h4⟩ | ⟨h1, h2, h3, h4⟩ | ⟨h1, h2, h3, h4⟩ <;>
    omega

lemma adjCells_symm {a b : Int × Int} (h : adjCells a b) : adjCells b a := by
  unfold adjCells at h ⊢
  omega

lemma adjCells_irrefl (a : Int × Int) : ¬ adjCells a a := by
  unfold adjCells
  omega

lemma adjCells_ne {a b : Int × Int} (h : adjCells a b) : a ≠ b := by
  rintro rfl
  exact adjCells_irrefl a h

lemma mid_comm (a b : Int × Int) : mid a b = mid b a := by
  unfold mid
  rw [Prod.mk.injEq]
  constructor <;> omega

/-- The four adjacency shapes, in a form convenient for case analysis. -/
lemma adjCells_cases {a b : Int × Int} (h : adjCells a b) :
    (b.1 = a.1 ∧ b.2 = a.2 - 2) ∨ (b.1 = a.1 ∧ b.2 = a.2 + 2) ∨
    (b.1 = a.1 - 2 ∧ b.2 = a.2) ∨ (b.1 = a.1 + 2 ∧ b.2 = a.2) := by
  unfold adjCells at h
  omega

lemma mid_spec {a b : Int × Int} (h : adjCells a b) :
    2 * (mid a b).1 = a.1 + b.1 ∧ 2 * (mid a b).2 = a.2 + b.2 := by
  unfold adjCells at h
  unfold mid
  constructor <;> · show 2 * (_ / 2) = _; omega

lemma midSlot_of_adj {gw gh : Int} {a b : Int × Int}
    (ha : cellPos gw gh a) (hb : cellPos gw gh b) (h : adjCells a b) :
    midSlot gw gh (mid a b) := by
  obtain ⟨hm1, hm2⟩ := mid_spec h
  unfold cellPos at ha hb
  unfold adjCells at h
  unfold midSlot
  omega

/-- The wall slot determines the unordered pair of adjacent cells. -/
lemma mid_inj {gw gh : Int} {a b c d : Int × Int}
    (ha : cellPos gw gh a) (hb : cellPos gw gh b)
    (hc : cellPos gw gh c) (hd : cellPos gw gh d)
    (hab : adjCells a b) (hcd : adjCells c d)
    (heq : mid a b = mid c d) : (c = a ∧ d = b) ∨ (c = b ∧ d = a) := by
  obtain ⟨h1, h2⟩ := mid_spec hab
  obtain ⟨h3, h4⟩ := mid_spec hcd
  rw [heq] at h1 h2
  unfold cellPos at ha hb hc hd
  unfold adjCells at hab hcd
  rw [Prod.ext_iff, Prod.ext_iff, Prod.ext_iff, Prod.ext_iff]
  omega

lemma cellPos_not_midSlot {gw gh : Int} {p : Int × Int} (h : cellPos gw gh p) :
    ¬ midSlot gw gh p := by
  unfold cellPos at h
  unfold midSlot
  omega

/-! ## Range and cell enumerations -/

lemma mem_rangeList {w h : Int} {p : Int × Int} :
    p ∈ rangeList w h ↔ 1 ≤ p.1 ∧ p.1 ≤ 2 * w - 1 ∧ 1 ≤ p.2 ∧ p.2 ≤ 2 * h - 1 := by
  unfold rangeList
  rw [List.mem_flatMap]
  constructor
  · rintro ⟨i, hi, hmem⟩
    rw [List.mem_map] at hmem
    obtain ⟨j, hj, rfl⟩ := hmem
    rw [List.mem_range] at hi hj
    refine ⟨?_, ?_, ?_, ?_⟩
    · show 1 ≤ (i : Int) + 1
      omega
    · show (i : Int) + 1 ≤ 2 * w - 1
      omega
    · show 1 ≤ (j : Int) + 1
      omega
    · show (j : Int) + 1 ≤ 2 * h - 1
      omega
  · rintro ⟨h1, h2, h3, h4⟩
    refine ⟨(p.1 - 1).toNat, by rw [List.mem_range]; omega, ?_⟩
    rw [List.mem_map]
    refine ⟨(p.2 - 1).toNat, by rw [List.mem_range]; omega, ?_⟩
    rw [Prod.ext_iff]
    constructor
    · show ((p.1 - 1).toNat : Int) + 1 = p.1
      omega
    · show ((p.2 - 1).toNat : Int) + 1 = p.2
      omega

lemma rangeList_nodup (w h : Int) : (rangeList w h).Nodup := by
  unfold rangeList
  rw [List.nodup_flatMap]
  constructor
  · intro i _
    refine List.Nodup.map ?_ (List.nodup_range _)
    intro a b hab
    rw [Prod.mk.injEq] at hab
    have h1 : (a : Int) + 1 = (b : Int) + 1 := hab.2
    omega
  · refine List.Pairwise.imp ?_ (List.pairwise_lt_range _)
    intro a b hlt q hqa hqb
    rw [List.mem_map] at hqa hqb
    obtain ⟨j1, _, rfl⟩ := hqa
    obtain ⟨j2, _, he⟩ := hqb
    rw [Prod.mk.injEq] at he
    have h1 : (b : Int) + 1 = (a : Int) + 1 := he.1
    omega

lemma sum_map_const_range (n c : Nat) : ((List.range n).map fun _ => c).sum = n * c := by
  induction n with
  | zero => simp
  | succ m ih =>
    rw [List.range_succ, List.map_append, List.sum_append, ih]
    simp [Nat.succ_mul]

lemma rangeList_length (w h : Int) :
    (rangeList w h).length = (2 * w - 1).toNat * (2 * h - 1).toNat := by
  unfold rangeList
  rw [List.length_flatMap]
  have : (List.map (List.length ∘ fun i =>
      (List.range (2 * h - 1).toNat).map fun j => (Int.ofNat i + 1, Int.ofNat j + 1))
      (List.range (2 * w - 1).toNat)) =
      (List.range (2 * w - 1).toNat).map fun _ => (2 * h - 1).toNat := by
    refine List.map_congr_left ?_
    intro i _
    simp
  rw [this, sum_map_const_range]

lemma mem_cellList {w h : Int} {p : Int × Int} :
    p ∈ cellList w h ↔ cellPos (w * 2 + 1) (h * 2 + 1) p := by
  unfold cellList cellPos
  rw [List.mem_flatMap]
  constructor
  · rintro ⟨i, hi, hmem⟩
    rw [List.mem_map] at hmem
    obtain ⟨j, hj, rfl⟩ := hmem
    rw [List.mem_range] at hi hj
    refine ⟨?_, ?_, ?_, ?_, ?_, ?_⟩
    · show (2 * (i : Int) + 1) % 2 = 1
      omega
    · show (2 * (j : Int) + 1) % 2 = 1
      omega
    · show 1 ≤ 2 * (i : Int) + 1
      omega
    · show 2 * (i : Int) + 1 ≤ w * 2 + 1 - 2
      omega
    · show 1 ≤ 2 * (j : Int) + 1
      omega
    · show 2 * (j : Int) + 1 ≤ h * 2 + 1 - 2
      omega
  · rintro ⟨h1, h2, h3, h4, h5, h6⟩
    refine ⟨((p.1 - 1) / 2).toNat, by rw [List.mem_range]; omega, ?_⟩
    rw [List.mem_map]
    refine ⟨((p.2 - 1) / 2).toNat, by rw [List.mem_range]; omega, ?_⟩
    rw [Prod.ext_iff]
    constructor
    · show 2 * (((p.1 - 1) / 2).toNat : Int) + 1 = p.1
      omega
    · show 2 * (((p.2 - 1) / 2).toNat : Int) + 1 = p.2
      omega

lemma cellList_nodup (w h : Int) : (cellList w h).Nodup := by
  unfold cellList
  rw [List.nodup_flatMap]
  constructor
  · intro i _
    refine List.Nodup.map ?_ (List.nodup_range _)
    intro a b hab
    rw [Prod.mk.injEq] at hab
    have h1 : 2 * (a : Int) + 1 = 2 * (b : Int) + 1 := hab.2
    omega
  · refine List.Pairwise.imp ?_ (List.pairwise_lt_range _)
    intro a b hlt q hqa hqb
    rw [List.mem_map] at hqa hqb
    obtain ⟨j1, _, rfl⟩ := hqa
    obtain ⟨j2, _, he⟩ := hqb
    rw [Prod.mk.injEq] at he
    have h1 : 2 * (b : Int) + 1 = 2 * (a : Int) + 1 := he.1
    omega

lemma cellList_length (w h : Int) : (cellList w h).length = w.toNat * h.toNat := by
  unfold cellList
  rw [List.length_flatMap]
  have : (List.map (List.length ∘ fun cx =>
      (List.range h.toNat).map fun cy => (2 * Int.ofNat cx + 1, 2 * Int.ofNat cy + 1))
      (List.range w.toNat)) = (List.range w.toNat).map fun _ => h.toNat := by
    refine List.map_congr_left ?_
    intro i _
    simp
  rw [this, sum_map_const_range]


/-- If the neighbor scan comes up empty, every in-range cell at grid
distance 2 from the current cell is already visited. -/
lemma neighborsOf_nil_visited {gw gh x y nx ny : Int} {v : List (Int × Int)}
    (hn : neighborsOf gw gh v x y = [])
    (h1 : 1 ≤ nx) (h2 : nx ≤ gw - 2) (h3 : 1 ≤ ny) (h4 : ny ≤ gh - 2)
    (hadj : (nx = x ∧ ny = y - 2) ∨ (nx = x ∧ ny = y + 2) ∨
            (nx = x - 2 ∧ ny = y) ∨ (nx = x + 2 ∧ ny = y)) :
    (nx, ny) ∈ v := by
  by_contra h5
  have hd : ∃ wx wy : Int,
      (nx = x ∧ ny = y - 2 ∧ wx = 0 ∧ wy = -1) ∨
      (nx = x ∧ ny = y + 2 ∧ wx = 0 ∧ wy = 1) ∨
      (nx = x - 2 ∧ ny = y ∧ wx = -1 ∧ wy = 0) ∨
      (nx = x + 2 ∧ ny = y ∧ wx = 1 ∧ wy = 0) := by
    rcases hadj with ⟨e1, e2⟩ | ⟨e1, e2⟩ | ⟨e1, e2⟩ | ⟨e1, e2⟩
    · exact ⟨0, -1, Or.inl ⟨e1, e2, rfl, rfl⟩⟩
    · exact ⟨0, 1, Or.inr (Or.inl ⟨e1, e2, rfl, rfl⟩)⟩
    · exact ⟨-1, 0, Or.inr (Or.inr (Or.inl ⟨e1, e2, rfl, rfl⟩))⟩
    · exact ⟨1, 0, Or.inr (Or.inr (Or.inr ⟨e1, e2, rfl, rfl⟩))⟩
  obtain ⟨wx, wy, hdw⟩ := hd
  have hm : (nx, ny, wx, wy) ∈ neighborsOf gw gh v x y :=
    mem_neighborsOf.2 ⟨h1, by omega, h3, by omega, h5, hdw⟩
  rw [hn] at hm
  exact absurd hm (List.not_mem_nil _)

/-! ## The carve history and its tree structure -/

/-- `Carving vis E` relates a visited list and a carved-edge list built up
by the generator: visiting starts at `(1, 1)` and each carve joins a
visited cell `p` to a fresh cell `c`. -/
inductive Carving : List (Int × Int) → List ((Int × Int) × (Int × Int)) → Prop where
  | base : Carving [(1, 1)] []
  | step {vis : List (Int × Int)} {E : List ((Int × Int) × (Int × Int))}
      (p c : Int × Int) (hcv : Carving vis E) (hp : p ∈ vis) (hc : c ∉ vis) :
      Carving (c :: vis) ((p, c) :: E)

lemma Carving.origin_mem {vis E} (h : Carving vis E) : (1, 1) ∈ vis := by
  induction h with
  | base => exact List.mem_singleton.2 rfl
  | step p c hcv hp hc ih => exact List.mem_cons_of_mem _ ih

lemma Carving.endpoints {vis E} (h : Carving vis E) :
    ∀ e ∈ E, e.1 ∈ vis ∧ e.2 ∈ vis := by
  induction h with
  | base => intro e he; exact absurd he (List.not_mem_nil _)
  | step p c hcv hp hc ih =>
    intro e he
    rcases List.mem_cons.1 he with rfl | hmem
    · exact ⟨List.mem_cons_of_mem _ hp, List.mem_cons_self _ _⟩
    · obtain ⟨h1, h2⟩ := ih e hmem
      exact ⟨List.mem_cons_of_mem _ h1, List.mem_cons_of_mem _ h2⟩

lemma Carving.vis_nodup {vis E} (h : Carving vis E) : vis.Nodup := by
  induction h with
  | base => exact List.nodup_singleton _
  | step p c hcv hp hc ih => exact List.nodup_cons.2 ⟨hc, ih⟩

lemma Carving.children_eq {vis E} (h : Carving vis E) :
    vis = E.map Prod.snd ++ [(1, 1)] := by
  induction h with
  | base => rfl
  | step p c hcv hp hc ih => rw [List.map_cons, List.cons_append, ← ih]

lemma Carving.length_eq {vis E} (h : Carving vis E) : vis.length = E.length + 1 := by
  rw [h.children_eq]
  simp

lemma Carving.no_rev {vis E} (h : Carving vis E) :
    ∀ a b : Int × Int, (a, b) ∈ E → (b, a) ∉ E := by
  induction h with
  | base => intro a b hab; exact absurd hab (List.not_mem_nil _)
  | step p c hcv hp hc ih =>
    intro a b hab hba
    rcases List.mem_cons.1 hab with he | he
    · rw [Prod.mk.injEq] at he
      obtain ⟨rfl, rfl⟩ := he
      rcases List.mem_cons.1 hba with he2 | he2
      · rw [Prod.mk.injEq] at he2
        exact hc (he2.1 ▸ hp)
      · exact hc (hcv.endpoints _ he2).1
    · rcases List.mem_cons.1 hba with he2 | he2
      · rw [Prod.mk.injEq] at he2
        exact hc (he2.2 ▸ (hcv.endpoints _ he).1)
      · exact ih a b he he2

lemma Carving.edges_nodup {vis E} (h : Carving vis E) : E.Nodup := by
  have h1 : (E.map Prod.snd).Nodup := by
    have := h.vis_nodup
    rw [h.children_eq] at this
    exact (List.nodup_append.1 this).1
  exact h1.of_map

/-- Adjacency induced by a carved-edge list. -/
def edgeAdj (E : List ((Int × Int) × (Int × Int))) (u v : Int × Int) : Prop :=
  (u, v) ∈ E ∨ (v, u) ∈ E

lemma edgeAdj_mono {E : List ((Int × Int) × (Int × Int))} {e : (Int × Int) × (Int × Int)}
    {u v : Int × Int} (h : edgeAdj E u v) : edgeAdj (e :: E) u v :=
  h.imp (List.mem_cons_of_mem _) (List.mem_cons_of_mem _)

lemma Carving.reach {vis E} (h : Carving vis E) :
    ∀ q ∈ vis, Relation.ReflTransGen (edgeAdj E) (1, 1) q := by
  induction h with
  | base =>
    intro q hq
    rw [List.mem_singleton] at hq
    rw [hq]
  | step p c hcv hp hc ih =>
    intro q hq
    rcases List.mem_cons.1 hq with rfl | hmem
    · exact Relation.ReflTransGen.tail
        ((ih p hp).mono fun u v huv => edgeAdj_mono huv)
        (Or.inl (List.mem_cons_self _ _))
    · exact (ih q hmem).mono fun u v huv => edgeAdj_mono huv

/-! ## The passage graph of an edge list, and acyclicity -/

/-- The undirected graph on grid positions whose edges are the carved
passages of `E`. -/
def graphOf (E : List ((Int × Int) × (Int × Int))) : SimpleGraph (Int × Int) where
  Adj u v := u ≠ v ∧ edgeAdj E u v
  symm := by
    intro u v hadj
    exact ⟨Ne.symm hadj.1, hadj.2.symm⟩
  loopless := by
    intro u hadj
    exact hadj.1 rfl

/-- Every non-trivial walk into `b` ends with an edge into `b`. -/
lemma exists_last_edge {V : Type} {G : SimpleGraph V} {a b : V} (q : G.Walk a b)
    (hab : a ≠ b) : ∃ y, G.Adj y b ∧ s(y, b) ∈ q.edges := by
  induction q with
  | nil => exact absurd rfl hab
  | @cons u x b h q ih =>
    by_cases hxb : x = b
    · subst hxb
      exact ⟨u, h, by simp⟩
    · obtain ⟨y, hy, he⟩ := ih hxb
      exact ⟨y, hy, by simp [he]⟩

/-- Attaching a pendant edge `(p, c)` — where `c` occurs in no edge of
`E` — preserves acyclicity. -/
lemma isAcyclic_graphOf_cons {E : List ((Int × Int) × (Int × Int))} {p c : Int × Int}
    (hE : (graphOf E).IsAcyclic) (hcp : c ≠ p)
    (hfresh : ∀ e ∈ E, c ≠ e.1 ∧ c ≠ e.2) :
    (graphOf ((p, c) :: E)).IsAcyclic := by
  have hadj_c : ∀ z, (graphOf ((p, c) :: E)).Adj c z → z = p := by
    intro z hz
    obtain ⟨hne, hor⟩ := hz
    rcases hor with hm | hm
    · rcases List.mem_cons.1 hm with he | he
      · rw [Prod.mk.injEq] at he
        exact absurd he.1 hcp
      · exact absurd rfl ((hfresh _ he).1)
    · rcases List.mem_cons.1 hm with he | he
      · rw [Prod.mk.injEq] at he
        exact he.1
      · exact absurd rfl ((hfresh _ he).2)
  intro v w hw
  by_cases hmem : c ∈ w.support
  · have hrot := hw.rotate hmem
    cases hq : w.rotate hmem with
    | nil =>
      rw [hq] at hrot
      exact SimpleGraph.Walk.IsCycle.not_of_nil hrot
    | @cons _ v2 _ h q =>
      rw [hq] at hrot
      obtain rfl : p = v2 := (hadj_c v2 h).symm
      rw [SimpleGraph.Walk.cons_isCycle_iff] at hrot
      obtain ⟨hqpath, hqedge⟩ := hrot
      obtain ⟨y, hy, hyedge⟩ := exists_last_edge q fun hpc => hcp hpc.symm
      have hyp : y = p := hadj_c y ((graphOf ((p, c) :: E)).symm hy)
      subst hyp
      rw [Sym2.eq_swap] at hyedge
      exact hqedge hyedge
  · have hsub : ∀ e ∈ w.edges, e ∈ (graphOf E).edgeSet := by
      intro e he
      induction e using Sym2.ind with
      | _ a b =>
        have hadj := SimpleGraph.Walk.adj_of_mem_edges w he
        have hasup := SimpleGraph.Walk.fst_mem_support_of_mem_edges w he
        have hbsup := SimpleGraph.Walk.snd_mem_support_of_mem_edges w he
        obtain ⟨hne, hor⟩ := hadj
        rw [SimpleGraph.mem_edgeSet]
        refine ⟨hne, ?_⟩
        rcases hor with hm | hm
        · rcases List.mem_cons.1 hm with hpc | hmm
          · rw [Prod.mk.injEq] at hpc
            exact absurd (hpc.2 ▸ hbsup) hmem
          · exact Or.inl hmm
        · rcases List.mem_cons.1 hm with hpc | hmm
          · rw [Prod.mk.injEq] at hpc
            exact absurd (hpc.2 ▸ hasup) hmem
          · exact Or.inr hmm
    exact hE _ (hw.transfer hsub)

lemma Carving.acyclic {vis E} (h : Carving vis E) : (graphOf E).IsAcyclic := by
  induction h with
  | base =>
    intro v w hw
    cases w with
    | nil => exact SimpleGraph.Walk.IsCycle.not_of_nil hw
    | cons hadj q => exact absurd hadj.2 (by simp [edgeAdj])
  | step p c hcv hp hc ih =>
    refine isAcyclic_graphOf_cons ih ?_ ?_
    · intro hcc
      exact hc (hcc ▸ hp)
    · intro e he
      have hend := hcv.endpoints e he
      exact ⟨fun hh => hc (hh ▸ hend.1), fun hh => hc (hh ▸ hend.2)⟩

/-! ## The generation invariant -/

/-- The loop invariant of `Maze.generate` on a `(gw, gh)` grid. -/
structure GenInv (gw gh : Int) (s : GenState) : Prop where
  shape : GridShape gw gh s.grid
  err_false : s.err = false
  stack_sub : ∀ p ∈ s.stack, p ∈ s.visited
  stack_nodup : s.stack.Nodup
  vis_cell : ∀ p ∈ s.visited, cellPos gw gh p
  carving : Carving s.visited s.edges
  edges_adj : ∀ e ∈ s.edges, adjCells e.1 e.2
  closed : ∀ p ∈ s.visited, p ∉ s.stack →
    ∀ q, cellPos gw gh q → adjCells p q → q ∈ s.visited
  pushes_eq : s.pushes = s.visited
  pops_acc : s.pushes.Perm (s.stack ++ s.pops)
  gridchar : ∀ a b : Int, 0 ≤ a → a < gw → 0 ≤ b → b < gh →
    gridGet s.grid a b =
      (if (a, b) ∈ s.visited ∨ (∃ e ∈ s.edges, mid e.1 e.2 = (a, b)) then PATH else WALL)

lemma gridGet_replicate {gw gh x y : Int} (hx0 : 0 ≤ x) (hx1 : x < gw)
    (hy0 : 0 ≤ y) (hy1 : y < gh) :
    gridGet (List.replicate gh.toNat (List.replicate gw.toNat WALL)) x y = WALL := by
  unfold gridGet
  have hylen : y.toNat < (List.replicate gh.toNat (List.replicate gw.toNat WALL)).length := by
    rw [List.length_replicate]
    omega
  have hrow : (List.replicate gh.toNat (List.replicate gw.toNat WALL)).getD y.toNat [] =
      List.replicate gw.toNat WALL := by
    rw [List.getD_eq_getElem?_getD, List.getElem?_eq_getElem hylen, Option.getD_some,
      List.getElem_replicate]
  rw [hrow]
  have hxlen : x.toNat < (List.replicate gw.toNat WALL).length := by
    rw [List.length_replicate]
    omega
  rw [List.getD_eq_getElem?_getD, List.getElem?_eq_getElem hxlen, Option.getD_some,
    List.getElem_replicate]

lemma genStart_inv {w h : Int} (hw : 1 ≤ w) (hh : 1 ≤ h) :
    GenInv (w * 2 + 1) (h * 2 + 1) (genStart (Maze.init w h)) := by
  have hb : inBoundsB (w * 2 + 1) (h * 2 + 1) 1 1 = true := by
    rw [inBoundsB_iff]
    omega
  have hgrid : (genStart (Maze.init w h)).grid =
      gridSet (List.replicate (h * 2 + 1).toNat (List.replicate (w * 2 + 1).toNat WALL))
        1 1 PATH := by
    unfold genStart
    rw [Maze.init_grid_w, Maze.init_grid_h]
    rw [writeCell_grid_of_inBounds _ _ _ _ _ _ hb]
    rw [Maze.init_grid]
  have herr : (genStart (Maze.init w h)).err = false := by
    unfold genStart
    rw [Maze.init_grid_w, Maze.init_grid_h]
    rw [writeCell_err_of_inBounds _ _ _ _ _ _ hb]
  have hstack : (genStart (Maze.init w h)).stack = [(1, 1)] := by
    unfold genStart
    rw [writeCell_stack]
  have hvis : (genStart (Maze.init w h)).visited = [(1, 1)] := by
    unfold genStart
    rw [writeCell_visited]
  have hedges : (genStart (Maze.init w h)).edges = [] := by
    unfold genStart
    rw [writeCell_edges]
  have hpushes : (genStart (Maze.init w h)).pushes = [(1, 1)] := by
    unfold genStart
    rw [writeCell_pushes]
  have hpops : (genStart (Maze.init w h)).pops = [] := by
    unfold genStart
    rw [writeCell_pops]
  have hcell11 : cellPos (w * 2 + 1) (h * 2 + 1) ((1 : Int), (1 : Int)) := by
    unfold cellPos
    refine ⟨?_, ?_, ?_, ?_, ?_, ?_⟩
    · show (1 : Int) % 2 = 1
      omega
    · show (1 : Int) % 2 = 1
      omega
    · show (1 : Int) ≤ 1
      omega
    · show (1 : Int) ≤ w * 2 + 1 - 2
      omega
    · show (1 : Int) ≤ 1
      omega
    · show (1 : Int) ≤ h * 2 + 1 - 2
      omega
  constructor
  case shape =>
    rw [hgrid]
    exact gridShape_set (GridShape.replicate _ _) _ _ _
  case err_false => exact herr
  case stack_sub =>
    rw [hstack, hvis]
    intro p hp
    exact hp
  case stack_nodup =>
    rw [hstack]
    exact List.nodup_singleton _
  case vis_cell =>
    rw [hvis]
    intro p hp
    rw [List.mem_singleton] at hp
    rw [hp]
    exact hcell11
  case carving =>
    rw [hvis, hedges]
    exact Carving.base
  case edges_adj =>
    rw [hedges]
    intro e he
    exact absurd he (List.not_mem_nil _)
  case closed =>
    rw [hvis, hstack]
    intro p hp hpstack
    exact absurd hp hpstack
  case pushes_eq =>
    rw [hpushes, hvis]
  case pops_acc =>
    rw [hpushes, hstack, hpops]
    simp
  case gridchar =>
    intro a b ha0 ha1 hb0 hb1
    rw [hgrid, hvis, hedges]
    by_cases hab : ((a : Int), (b : Int)) = ((1 : Int), (1 : Int))
    · rw [Prod.mk.injEq] at hab
      obtain ⟨rfl, rfl⟩ := hab
      rw [gridGet_set_self (GridShape.replicate _ _) (by omega) (by omega) (by omega) (by omega)]
      rw [if_pos (Or.inl (List.mem_singleton.2 rfl))]
    · rw [gridGet_set_ne (by omega) (by omega) _ hab, gridGet_replicate ha0 ha1 hb0 hb1]
      rw [if_neg]
      rintro (hmem | ⟨e, he, _⟩)
      · rw [List.mem_singleton] at hmem
        exact hab hmem
      · exact absurd he (List.not_mem_nil _)

lemma inv_backtrack {gw gh : Int} {s : GenState} {x y : Int} {rest : List (Int × Int)}
    (hInv : GenInv gw gh s) (hs : s.stack = (x, y) :: rest)
    (hn : neighborsOf gw gh s.visited x y = []) (k : Nat) :
    GenInv gw gh { s with stack := rest, pops := (x, y) :: s.pops, backSteps := k } := by
  have hstack_nodup := hInv.stack_nodup
  rw [hs] at hstack_nodup
  constructor
  case shape => exact hInv.shape
  case err_false => exact hInv.err_false
  case stack_sub =>
    intro p hp
    exact hInv.stack_sub p (by rw [hs]; exact List.mem_cons_of_mem _ hp)
  case stack_nodup => exact (List.nodup_cons.1 hstack_nodup).2
  case vis_cell => exact hInv.vis_cell
  case carving => exact hInv.carving
  case edges_adj => exact hInv.edges_adj
  case closed =>
    intro p hp hpstack q hq hadj
    by_cases hpxy : p = (x, y)
    · subst hpxy
      obtain ⟨hc1, hc2, hc3, hc4⟩ : q.1 % 2 = 1 ∧ q.2 % 2 = 1 ∧
          (1 ≤ q.1 ∧ q.1 ≤ gw - 2) ∧ (1 ≤ q.2 ∧ q.2 ≤ gh - 2) := by
        unfold cellPos at hq
        exact ⟨hq.1, hq.2.1, ⟨hq.2.2.1, hq.2.2.2.1⟩, ⟨hq.2.2.2.2.1, hq.2.2.2.2.2⟩⟩
      have hcases := adjCells_cases hadj
      have hq' : q = (q.1, q.2) := rfl
      rw [hq']
      refine neighborsOf_nil_visited hn hc3.1 hc3.2 hc4.1 hc4.2 ?_
      rcases hcases with ⟨e1, e2⟩ | ⟨e1, e2⟩ | ⟨e1, e2⟩ | ⟨e1, e2⟩
      · exact Or.inl ⟨e1, e2⟩
      · exact Or.inr (Or.inl ⟨e1, e2⟩)
      · exact Or.inr (Or.inr (Or.inl ⟨e1, e2⟩))
      · exact Or.inr (Or.inr (Or.inr ⟨e1, e2⟩))
    · refine hInv.closed p hp ?_ q hq hadj
      rw [hs]
      intro hmem
      rcases List.mem_cons.1 hmem with he | he
      · exact hpxy he
      · exact hpstack he
  case pushes_eq => exact hInv.pushes_eq
  case pops_acc =>
    have h1 := hInv.pops_acc
    rw [hs] at h1
    refine h1.trans ?_
    rw [List.cons_append]
    exact List.perm_middle.symm
  case gridchar => exact hInv.gridchar

lemma inv_visit {gw gh : Int} {animate : Bool} {s : GenState} {x y nx ny wx wy : Int}
    {rest : List (Int × Int)}
    (hInv : GenInv gw gh s) (hs : s.stack = (x, y) :: rest)
    (hmem : (nx, ny, wx, wy) ∈ neighborsOf gw gh s.visited x y) (k1 k2 : Nat) :
    GenInv gw gh
      { writeCell gw gh (writeCell gw gh s (x + wx) (y + wy) PATH) nx ny PATH with
        visited := (nx, ny) :: s.visited
        stack := (nx, ny) :: s.stack
        edges := ((x, y), (nx, ny)) :: s.edges
        pushes := (nx, ny) :: s.pushes
        visitSteps := k1
        snaps := if animate then s.snaps + 1 else s.snaps
        t := k2 } := by
  obtain ⟨hb1, hb2, hb3, hb4, hfresh, hdir4⟩ := mem_neighborsOf.1 hmem
  have hdir : DirRel x y nx ny wx wy := hdir4
  have hxy_stack : (x, y) ∈ s.stack := by
    rw [hs]
    exact List.mem_cons_self _ _
  have hxy_vis := hInv.stack_sub _ hxy_stack
  have hxy_cell := hInv.vis_cell _ hxy_vis
  have hpx : x % 2 = 1 := hxy_cell.1
  have hpy : y % 2 = 1 := hxy_cell.2.1
  have hncell : cellPos gw gh (nx, ny) := by
    unfold DirRel at hdir
    unfold cellPos
    refine ⟨?_, ?_, ?_, ?_, ?_, ?_⟩
    · show nx % 2 = 1
      omega
    · show ny % 2 = 1
      omega
    · show 1 ≤ nx
      omega
    · show nx ≤ gw - 2
      omega
    · show 1 ≤ ny
      omega
    · show ny ≤ gh - 2
      omega
  have hn1 : nx % 2 = 1 := hncell.1
  have hn2 : ny % 2 = 1 := hncell.2.1
  have hadj := adjCells_of_dirRel hdir
  have hwall := wall_eq_mid hdir
  have hms := midSlot_of_adj hxy_cell hncell hadj
  have hwb : 1 ≤ x + wx ∧ x + wx ≤ gw - 2 ∧ 1 ≤ y + wy ∧ y + wy ≤ gh - 2 := by
    have e1 : x + wx = (mid (x, y) (nx, ny)).1 := by rw [← hwall]
    have e2 : y + wy = (mid (x, y) (nx, ny)).2 := by rw [← hwall]
    unfold midSlot at hms
    omega
  obtain ⟨hwb1, hwb2, hwb3, hwb4⟩ := hwb
  have hbw : inBoundsB gw gh (x + wx) (y + wy) = true := by
    rw [inBoundsB_iff]
    omega
  have hbc : inBoundsB gw gh nx ny = true := by
    rw [inBoundsB_iff]
    have h3 : 1 ≤ nx := hncell.2.2.1
    have h4 : nx ≤ gw - 2 := hncell.2.2.2.1
    have h5 : 1 ≤ ny := hncell.2.2.2.2.1
    have h6 : ny ≤ gh - 2 := hncell.2.2.2.2.2
    omega
  have hn3 : 1 ≤ nx := hncell.2.2.1
  have hn4 : nx ≤ gw - 2 := hncell.2.2.2.1
  have hn5 : 1 ≤ ny := hncell.2.2.2.2.1
  have hn6 : ny ≤ gh - 2 := hncell.2.2.2.2.2
  have hsh1 : GridShape gw gh (gridSet s.grid (x + wx) (y + wy) PATH) :=
    gridShape_set hInv.shape _ _ _
  have hgrid2 : (writeCell gw gh (writeCell gw gh s (x + wx) (y + wy) PATH) nx ny PATH).grid
      = gridSet (gridSet s.grid (x + wx) (y + wy) PATH) nx ny PATH := by
    rw [writeCell_grid_of_inBounds _ _ _ _ _ _ hbc, writeCell_grid_of_inBounds _ _ _ _ _ _ hbw]
  have herr2 : (writeCell gw gh (writeCell gw gh s (x + wx) (y + wy) PATH) nx ny PATH).err
      = s.err := by
    rw [writeCell_err_of_inBounds _ _ _ _ _ _ hbc, writeCell_err_of_inBounds _ _ _ _ _ _ hbw]
  have hpops2 : (writeCell gw gh (writeCell gw gh s (x + wx) (y + wy) PATH) nx ny PATH).pops
      = s.pops := by
    rw [writeCell_pops, writeCell_pops]
  have hfresh_stack : (nx, ny) ∉ s.stack := fun hm => hfresh (hInv.stack_sub _ hm)
  have hne_cw : ((x + wx : Int), (y + wy : Int)) ≠ (nx, ny) := by
    intro he
    rw [hwall] at he
    exact cellPos_not_midSlot hncell (he ▸ hms)
  constructor
  case shape =>
    show GridShape gw gh (writeCell gw gh (writeCell gw gh s (x + wx) (y + wy) PATH) nx ny PATH).grid
    rw [hgrid2]
    exact gridShape_set hsh1 _ _ _
  case err_false =>
    show (writeCell gw gh (writeCell gw gh s (x + wx) (y + wy) PATH) nx ny PATH).err = false
    rw [herr2]
    exact hInv.err_false
  case stack_sub =>
    intro p hp
    rcases List.mem_cons.1 hp with rfl | hm
    · exact List.mem_cons_self _ _
    · exact List.mem_cons_of_mem _ (hInv.stack_sub _ hm)
  case stack_nodup =>
    exact List.nodup_cons.2 ⟨hfresh_stack, hInv.stack_nodup⟩
  case vis_cell =>
    intro p hp
    rcases List.mem_cons.1 hp with rfl | hm
    · exact hncell
    · exact hInv.vis_cell _ hm
  case carving =>
    exact Carving.step (x, y) (nx, ny) hInv.carving hxy_vis hfresh
  case edges_adj =>
    intro e he
    rcases List.mem_cons.1 he with rfl | hm
    · exact hadj
    · exact hInv.edges_adj _ hm
  case closed =>
    intro p hp hpstack q hq hqadj
    have hp_ne : p ≠ (nx, ny) := by
      intro he
      exact hpstack (he ▸ List.mem_cons_self _ _)
    have hp_vis : p ∈ s.visited := by
      rcases List.mem_cons.1 hp with rfl | hm
      · exact absurd rfl hp_ne
      · exact hm
    have hp_nstack : p ∉ s.stack := fun hm => hpstack (List.mem_cons_of_mem _ hm)
    exact List.mem_cons_of_mem _ (hInv.closed p hp_vis hp_nstack q hq hqadj)
  case pushes_eq =>
    rw [hInv.pushes_eq]
  case pops_acc =>
    show ((nx, ny) :: s.pushes).Perm (((nx, ny) :: s.stack) ++
      (writeCell gw gh (writeCell gw gh s (x + wx) (y + wy) PATH) nx ny PATH).pops)
    rw [hpops2, List.cons_append]
    exact hInv.pops_acc.cons _
  case gridchar =>
    intro a b ha0 ha1 hb0 hb1
    show gridGet (writeCell gw gh (writeCell gw gh s (x + wx) (y + wy) PATH) nx ny PATH).grid a b
      = _
    rw [hgrid2]
    by_cases hcell_eq : ((a : Int), (b : Int)) = ((nx : Int), (ny : Int))
    · rw [Prod.mk.injEq] at hcell_eq
      obtain ⟨rfl, rfl⟩ := hcell_eq
      rw [gridGet_set_self hsh1 (by omega) (by omega) (by omega) (by omega)]
      rw [if_pos (Or.inl (List.mem_cons_self _ _))]
    · by_cases hwall_eq2 : ((a : Int), (b : Int)) = ((x + wx : Int), (y + wy : Int))
      · rw [Prod.mk.injEq] at hwall_eq2
        obtain ⟨rfl, rfl⟩ := hwall_eq2
        rw [gridGet_set_ne (by omega) (by omega) _ hne_cw]
        rw [gridGet_set_self hInv.shape (by omega) (by omega) (by omega) (by omega)]
        rw [if_pos (Or.inr ⟨((x, y), (nx, ny)), List.mem_cons_self _ _, hwall.symm⟩)]
      · rw [gridGet_set_ne (by omega) (by omega) _ hcell_eq]
        rw [gridGet_set_ne (by omega) (by omega) _ hwall_eq2]
        rw [hInv.gridchar a b ha0 ha1 hb0 hb1]
        refine if_congr ?_ rfl rfl
        constructor
        · rintro (hm | ⟨e, he, hme⟩)
          · exact Or.inl (List.mem_cons_of_mem _ hm)
          · exact Or.inr ⟨e, List.mem_cons_of_mem _ he, hme⟩
        · rintro (hm | ⟨e, he, hme⟩)
          · rcases List.mem_cons.1 hm with he2 | he2
            · exact absurd he2 hcell_eq
            · exact Or.inl he2
          · rcases List.mem_cons.1 he with rfl | he2
            · exact absurd (hwall ▸ hme.symm) hwall_eq2
            · exact Or.inr ⟨e, he2, hme⟩

lemma genStep_inv {gw gh : Int} {animate : Bool} {seq : Nat → Nat} {s : GenState}
    (hInv : GenInv gw gh s) : GenInv gw gh (genStep gw gh animate seq s) := by
  cases hs : s.stack with
  | nil =>
    rw [genStep_of_stack_nil hs]
    exact hInv
  | cons hd rest =>
    obtain ⟨x, y⟩ := hd
    cases hn : neighborsOf gw gh s.visited x y with
    | nil =>
      rw [genStep_backtrack hs hn]
      exact inv_backtrack hInv hs hn _
    | cons nb tl =>
      rw [genStep_visit hs hn]
      have hcm : (nb :: tl).getD (seq s.t % (nb :: tl).length) nb ∈
          neighborsOf gw gh s.visited x y := by
        rw [hn]
        exact getD_mem_cons _ _ _
      exact inv_visit hInv hs hcm _ _

lemma genIter_inv {gw gh : Int} {animate : Bool} {seq : Nat → Nat} {s : GenState}
    (hInv : GenInv gw gh s) (n : Nat) : GenInv gw gh (genIter gw gh animate seq n s) := by
  induction n generalizing s with
  | zero => exact hInv
  | succ m ih => exact ih (genStep_inv hInv)

/-! ## Termination -/

lemma genIter_zero {gw gh : Int} {animate : Bool} {seq : Nat → Nat} {s : GenState} :
    genIter gw gh animate seq 0 s = s := rfl

lemma genIter_succ {gw gh : Int} {animate : Bool} {seq : Nat → Nat} {s : GenState} {n : Nat} :
    genIter gw gh animate seq (n + 1) s =
      genIter gw gh animate seq n (genStep gw gh animate seq s) := rfl

lemma genIter_of_stack_nil {gw gh : Int} {animate : Bool} {seq : Nat → Nat} {s : GenState}
    (hs : s.stack = []) (n : Nat) : genIter gw gh animate seq n s = s := by
  induction n with
  | zero => rfl
  | succ m ih =>
    rw [genIter_succ, genStep_of_stack_nil hs]
    exact ih

lemma filter_not_mem_cons_length_lt {l v : List (Int × Int)} {c : Int × Int}
    (hcl : c ∈ l) (hcv : c ∉ v) :
    (l.filter fun p => decide (p ∉ c :: v)).length <
      (l.filter fun p => decide (p ∉ v)).length := by
  have heq : (l.filter fun p => decide (p ∉ c :: v)) =
      (l.filter fun p => decide (p ∉ v)).filter fun p => decide (p ≠ c) := by
    rw [List.filter_filter]
    refine List.filter_congr ?_
    intro p _
    rw [decide_eq_decide.2 (show p ∉ c :: v ↔ (p ≠ c ∧ p ∉ v) by
      rw [List.mem_cons]
      tauto)]
    rw [Bool.decide_and, Bool.and_comm]
  rw [heq]
  rw [List.length_filter_lt_length_iff_exists]
  refine ⟨c, ?_, by simp⟩
  rw [List.mem_filter]
  exact ⟨hcl, by simpa using hcv⟩

lemma stepMeasure_genStep_lt {w h : Int} {animate : Bool} {seq : Nat → Nat} {s : GenState}
    (hs : s.stack ≠ []) :
    stepMeasure w h (genStep (w * 2 + 1) (h * 2 + 1) animate seq s) < stepMeasure w h s := by
  cases hst : s.stack with
  | nil => exact absurd hst hs
  | cons hd rest =>
    obtain ⟨x, y⟩ := hd
    cases hn : neighborsOf (w * 2 + 1) (h * 2 + 1) s.visited x y with
    | nil =>
      rw [genStep_backtrack hst hn]
      unfold stepMeasure
      show 2 * ((rangeList w h).filter fun p => decide (p ∉ s.visited)).length + rest.length <
        2 * ((rangeList w h).filter fun p => decide (p ∉ s.visited)).length + s.stack.length
      rw [hst]
      simp
    | cons nb tl =>
      rw [genStep_visit hst hn]
      generalize hgc : (nb :: tl).getD (seq s.t % (nb :: tl).length) nb = c
      have hcm : c ∈ neighborsOf (w * 2 + 1) (h * 2 + 1) s.visited x y := by
        rw [← hgc, hn]
        exact getD_mem_cons _ _ _
      obtain ⟨nx, ny, wx, wy⟩ := c
      obtain ⟨hb1, hb2, hb3, hb4, hfresh, _⟩ := mem_neighborsOf.1 hcm
      have hmemr : ((nx : Int), (ny : Int)) ∈ rangeList w h := by
        rw [mem_rangeList]
        exact ⟨hb1, by omega, hb3, by omega⟩
      have hlt := filter_not_mem_cons_length_lt (l := rangeList w h) hmemr hfresh
      unfold stepMeasure
      show 2 * ((rangeList w h).filter fun p => decide (p ∉ (nx, ny) :: s.visited)).length +
          ((nx, ny) :: s.stack).length <
        2 * ((rangeList w h).filter fun p => decide (p ∉ s.visited)).length + s.stack.length
      rw [List.length_cons, hst, List.length_cons]
      omega

lemma genIter_stack_nil_of_measure {w h : Int} {animate : Bool} {seq : Nat → Nat} :
    ∀ (n : Nat) (s : GenState), stepMeasure w h s ≤ n →
      (genIter (w * 2 + 1) (h * 2 + 1) animate seq n s).stack = [] := by
  intro n
  induction n with
  | zero =>
    intro s hm
    unfold stepMeasure at hm
    have hlen : s.stack.length = 0 := by omega
    rw [genIter_zero]
    exact List.length_eq_zero.1 hlen
  | succ m ih =>
    intro s hm
    by_cases hs : s.stack = []
    · rw [genIter_succ, genStep_of_stack_nil hs, genIter_of_stack_nil hs]
      exact hs
    · rw [genIter_succ]
      refine ih _ ?_
      have := @stepMeasure_genStep_lt w h animate seq s hs
      omega

lemma toNat_mul_of_nonneg {a b : Int} (ha : 0 ≤ a) (hb : 0 ≤ b) :
    (a * b).toNat = a.toNat * b.toNat := by
  rw [← Int.toNat_of_nonneg ha, ← Int.toNat_of_nonneg hb, ← Int.natCast_mul, Int.toNat_natCast,
    Int.toNat_natCast, Int.toNat_natCast]

lemma genStart_stack (m : Maze) : (genStart m).stack = [(1, 1)] := by
  unfold genStart
  rw [writeCell_stack]

lemma genStart_visited (m : Maze) : (genStart m).visited = [(1, 1)] := by
  unfold genStart
  rw [writeCell_visited]

lemma stepMeasure_start_le {w h : Int} (hw : 1 ≤ w) (hh : 1 ≤ h) :
    stepMeasure w h (genStart (Maze.init w h)) ≤ genFuel w h := by
  unfold stepMeasure genFuel
  rw [genStart_stack]
  have h1 := List.length_filter_le
    (fun p => decide (p ∉ (genStart (Maze.init w h)).visited)) (rangeList w h)
  rw [rangeList_length] at h1
  rw [toNat_mul_of_nonneg (by omega) (by omega)]
  rw [List.length_cons, List.length_nil]
  omega

/-- The generation loop genuinely terminates: within the iteration budget
of `Maze.generate`, the stack empties, and the state is then a fixpoint. -/
lemma generate_stack_nil {w h : Int} (hw : 1 ≤ w) (hh : 1 ≤ h)
    (animate : Bool) (seq : Nat → Nat) :
    (genIter (w * 2 + 1) (h * 2 + 1) animate seq (genFuel w h)
      (genStart (Maze.init w h))).stack = [] :=
  genIter_stack_nil_of_measure _ _ (stepMeasure_start_le hw hh)

/-! ## Coverage: at loop exit every cell is visited -/

lemma coverage {gw gh : Int} {s : GenState} (hInv : GenInv gw gh s)
    (hstack : s.stack = []) :
    ∀ q : Int × Int, cellPos gw gh q → q ∈ s.visited := by
  suffices hstrong : ∀ n : Nat, ∀ q : Int × Int, (q.1 + q.2).toNat = n →
      cellPos gw gh q → q ∈ s.visited by
    intro q hq
    exact hstrong _ q rfl hq
  intro n
  induction n using Nat.strong_induction_on with
  | _ n ih =>
    intro q hqn hq
    have c1 : q.1 % 2 = 1 := hq.1
    have c2 : q.2 % 2 = 1 := hq.2.1
    have c3 : 1 ≤ q.1 := hq.2.2.1
    have c4 : q.1 ≤ gw - 2 := hq.2.2.2.1
    have c5 : 1 ≤ q.2 := hq.2.2.2.2.1
    have c6 : q.2 ≤ gh - 2 := hq.2.2.2.2.2
    by_cases hq1 : q = ((1 : Int), (1 : Int))
    · rw [hq1]
      exact hInv.carving.origin_mem
    · have hbig : 3 ≤ q.1 ∨ 3 ≤ q.2 := by
        by_contra hcon
        rw [not_or] at hcon
        refine hq1 ?_
        rw [Prod.ext_iff]
        constructor <;> omega
      rcases hbig with hb | hb
      · have hq'cell : cellPos gw gh (q.1 - 2, q.2) := by
          unfold cellPos
          refine ⟨?_, ?_, ?_, ?_, ?_, ?_⟩
          · show (q.1 - 2) % 2 = 1
            omega
          · show q.2 % 2 = 1
            omega
          · show 1 ≤ q.1 - 2
            omega
          · show q.1 - 2 ≤ gw - 2
            omega
          · show 1 ≤ q.2
            omega
          · show q.2 ≤ gh - 2
            omega
        have hadj : adjCells (q.1 - 2, q.2) q := by
          unfold adjCells
          show (q.1 - 2 = q.1 ∧ (q.2 = q.2 + 2 ∨ q.2 = q.2 + 2)) ∨
            (q.2 = q.2 ∧ (q.1 - 2 = q.1 + 2 ∨ q.1 = q.1 - 2 + 2))
          omega
        have hmem : (q.1 - 2, q.2) ∈ s.visited := by
          refine ih ((q.1 - 2) + q.2).toNat (by omega) _ ?_ hq'cell
          show (((q.1 - 2 : Int), (q.2 : Int)).1 + ((q.1 - 2 : Int), (q.2 : Int)).2).toNat =
            ((q.1 - 2) + q.2).toNat
          rfl
        have := hInv.closed _ hmem (by rw [hstack]; exact List.not_mem_nil _) q hq hadj
        exact this
      · have hq'cell : cellPos gw gh (q.1, q.2 - 2) := by
          unfold cellPos
          refine ⟨?_, ?_, ?_, ?_, ?_, ?_⟩
          · show q.1 % 2 = 1
            omega
          · show (q.2 - 2) % 2 = 1
            omega
          · show 1 ≤ q.1
            omega
          · show q.1 ≤ gw - 2
            omega
          · show 1 ≤ q.2 - 2
            omega
          · show q.2 - 2 ≤ gh - 2
            omega
        have hadj : adjCells (q.1, q.2 - 2) q := by
          unfold adjCells
          show (q.1 = q.1 ∧ (q.2 - 2 = q.2 + 2 ∨ q.2 = q.2 - 2 + 2)) ∨
            (q.2 - 2 = q.2 ∧ (q.1 = q.1 + 2 ∨ q.1 = q.1 + 2))
          omega
        have hmem : (q.1, q.2 - 2) ∈ s.visited := by
          refine ih (q.1 + (q.2 - 2)).toNat (by omega) _ ?_ hq'cell
          show (((q.1 : Int), (q.2 - 2 : Int)).1 + ((q.1 : Int), (q.2 - 2 : Int)).2).toNat =
            (q.1 + (q.2 - 2)).toNat
          rfl
        have := hInv.closed _ hmem (by rw [hstack]; exact List.not_mem_nil _) q hq hadj
        exact this

/-! ## The state at loop exit -/

/-- The generation state when the carving loop of `Maze.generate` exits,
before endpoint marking. -/
def loopState (w h : Int) (seq : Nat → Nat) (animate : Bool) : GenState :=
  genIter (w * 2 + 1) (h * 2 + 1) animate seq (genFuel w h) (genStart (Maze.init w h))

lemma mazeRun_eq (w h : Int) (seq : Nat → Nat) (animate : Bool) :
    mazeRun w h seq animate = markEnds (Maze.init w h) (loopState w h seq animate) := rfl

lemma markEnds_stack (m : Maze) (s : GenState) : (markEnds m s).stack = s.stack := by
  unfold markEnds
  rw [writeCell_stack, writeCell_stack]

lemma markEnds_visited (m : Maze) (s : GenState) : (markEnds m s).visited = s.visited := by
  unfold markEnds
  rw [writeCell_visited, writeCell_visited]

lemma markEnds_edges (m : Maze) (s : GenState) : (markEnds m s).edges = s.edges := by
  unfold markEnds
  rw [writeCell_edges, writeCell_edges]

lemma markEnds_pushes (m : Maze) (s : GenState) : (markEnds m s).pushes = s.pushes := by
  unfold markEnds
  rw [writeCell_pushes, writeCell_pushes]

lemma markEnds_pops (m : Maze) (s : GenState) : (markEnds m s).pops = s.pops := by
  unfold markEnds
  rw [writeCell_pops, writeCell_pops]

lemma markEnds_snaps (m : Maze) (s : GenState) : (markEnds m s).snaps = s.snaps := by
  unfold markEnds
  rw [writeCell_snaps, writeCell_snaps]

lemma markEnds_visitSteps (m : Maze) (s : GenState) :
    (markEnds m s).visitSteps = s.visitSteps := by
  unfold markEnds
  rw [writeCell_visitSteps, writeCell_visitSteps]

lemma markEnds_backSteps (m : Maze) (s : GenState) :
    (markEnds m s).backSteps = s.backSteps := by
  unfold markEnds
  rw [writeCell_backSteps, writeCell_backSteps]

lemma markEnds_grid {w h : Int} (hw : 1 ≤ w) (hh : 1 ≤ h) (s : GenState) :
    (markEnds (Maze.init w h) s).grid =
      gridSet (gridSet s.grid 1 1 START) (w * 2 + 1 - 2) (h * 2 + 1 - 2) ENDC := by
  unfold markEnds
  rw [Maze.init_grid_w, Maze.init_grid_h]
  rw [writeCell_grid_of_inBounds _ _ _ _ _ _ (by rw [inBoundsB_iff]; omega)]
  rw [writeCell_grid_of_inBounds _ _ _ _ _ _ (by rw [inBoundsB_iff]; omega)]

lemma markEnds_err {w h : Int} (hw : 1 ≤ w) (hh : 1 ≤ h) (s : GenState) :
    (markEnds (Maze.init w h) s).err = s.err := by
  unfold markEnds
  rw [Maze.init_grid_w, Maze.init_grid_h]
  rw [writeCell_err_of_inBounds _ _ _ _ _ _ (by rw [inBoundsB_iff]; omega)]
  rw [writeCell_err_of_inBounds _ _ _ _ _ _ (by rw [inBoundsB_iff]; omega)]

/-- Endpoint marking does not touch any position other than `(1, 1)` and
`(grid_w - 2, grid_h - 2)`. -/
lemma markEnds_gridGet_ne {w h : Int} (hw : 1 ≤ w) (hh : 1 ≤ h) (s : GenState)
    {a b : Int} (h1 : ((a : Int), (b : Int)) ≠ (1, 1))
    (h2 : ((a : Int), (b : Int)) ≠ (w * 2 + 1 - 2, h * 2 + 1 - 2)) :
    gridGet (markEnds (Maze.init w h) s).grid a b = gridGet s.grid a b := by
  rw [markEnds_grid hw hh]
  rw [gridGet_set_ne (by omega) (by omega) _ h2, gridGet_set_ne (by omega) (by omega) _ h1]

lemma cellPos_origin {w h : Int} (hw : 1 ≤ w) (hh : 1 ≤ h) :
    cellPos (w * 2 + 1) (h * 2 + 1) ((1 : Int), (1 : Int)) := by
  unfold cellPos
  refine ⟨?_, ?_, ?_, ?_, ?_, ?_⟩
  · show (1 : Int) % 2 = 1
    omega
  · show (1 : Int) % 2 = 1
    omega
  · show (1 : Int) ≤ 1
    omega
  · show (1 : Int) ≤ w * 2 + 1 - 2
    omega
  · show (1 : Int) ≤ 1
    omega
  · show (1 : Int) ≤ h * 2 + 1 - 2
    omega

lemma loopState_inv {w h : Int} (hw : 1 ≤ w) (hh : 1 ≤ h) (seq : Nat → Nat)
    (animate : Bool) : GenInv (w * 2 + 1) (h * 2 + 1) (loopState w h seq animate) :=
  genIter_inv (genStart_inv hw hh) _

lemma loopState_stack {w h : Int} (hw : 1 ≤ w) (hh : 1 ≤ h) (seq : Nat → Nat)
    (animate : Bool) : (loopState w h seq animate).stack = [] :=
  generate_stack_nil hw hh animate seq

lemma loopState_coverage {w h : Int} (hw : 1 ≤ w) (hh : 1 ≤ h) (seq : Nat → Nat)
    (animate : Bool) :
    ∀ q : Int × Int, cellPos (w * 2 + 1) (h * 2 + 1) q →
      q ∈ (loopState w h seq animate).visited :=
  coverage (loopState_inv hw hh seq animate) (loopState_stack hw hh seq animate)

lemma loopState_visited_perm {w h : Int} (hw : 1 ≤ w) (hh : 1 ≤ h) (seq : Nat → Nat)
    (animate : Bool) : (loopState w h seq animate).visited.Perm (cellList w h) := by
  rw [List.perm_ext_iff_of_nodup
    (loopState_inv hw hh seq animate).carving.vis_nodup (cellList_nodup w h)]
  intro a
  constructor
  · intro ha
    rw [mem_cellList]
    exact (loopState_inv hw hh seq animate).vis_cell _ ha
  · intro ha
    exact loopState_coverage hw hh seq animate a (mem_cellList.1 ha)

lemma loopState_visited_length {w h : Int} (hw : 1 ≤ w) (hh : 1 ≤ h) (seq : Nat → Nat)
    (animate : Bool) :
    ((loopState w h seq animate).visited.length : Int) = w * h := by
  rw [(loopState_visited_perm hw hh seq animate).length_eq, cellList_length]
  rw [Int.natCast_mul, Int.toNat_of_nonneg (by omega), Int.toNat_of_nonneg (by omega)]

lemma loopState_edges_length {w h : Int} (hw : 1 ≤ w) (hh : 1 ≤ h) (seq : Nat → Nat)
    (animate : Bool) :
    ((loopState w h seq animate).edges.length : Int) = w * h - 1 := by
  have h1 := (loopState_inv hw hh seq animate).carving.length_eq
  have h2 := loopState_visited_length hw hh seq animate
  omega

/-! ## The passage graph of the finished maze -/

/-- Logical-cell vertices of a `w × h` maze, as grid positions. -/
def CellV (w h : Int) : Type :=
  {p : Int × Int // cellPos (w * 2 + 1) (h * 2 + 1) p}

/-- The graph whose vertices are the logical cells and whose edges are the
carved passages readable from a finished grid: two adjacent cells are
joined exactly when the wall slot between them holds `PATH`. -/
def passageGraph (w h : Int) (g : List (List Char)) : SimpleGraph (CellV w h) where
  Adj u v := adjCells u.val v.val ∧
    gridGet g (mid u.val v.val).1 (mid u.val v.val).2 = PATH
  symm := by
    rintro u v ⟨h1, h2⟩
    refine ⟨adjCells_symm h1, ?_⟩
    rw [mid_comm]
    exact h2
  loopless := by
    rintro u ⟨h1, _⟩
    exact adjCells_irrefl _ h1

/-- A wall slot between two adjacent cells is `PATH` in the finished maze
iff the generator carved that passage. -/
lemma final_pass_iff {w h : Int} (hw : 1 ≤ w) (hh : 1 ≤ h) (seq : Nat → Nat)
    (animate : Bool) {u v : Int × Int}
    (hu : cellPos (w * 2 + 1) (h * 2 + 1) u) (hv : cellPos (w * 2 + 1) (h * 2 + 1) v)
    (hadj : adjCells u v) :
    gridGet (mazeRun w h seq animate).grid (mid u v).1 (mid u v).2 = PATH ↔
      ((u, v) ∈ (loopState w h seq animate).edges ∨
       (v, u) ∈ (loopState w h seq animate).edges) := by
  have hms := midSlot_of_adj hu hv hadj
  have hms' := hms
  unfold midSlot at hms'
  have hmid_eta : ((mid u v).1, (mid u v).2) = mid u v := rfl
  have hinv := loopState_inv hw hh seq animate
  rw [mazeRun_eq]
  rw [markEnds_gridGet_ne hw hh _ (by
      intro he
      rw [Prod.mk.injEq] at he
      omega)
    (by
      intro he
      rw [Prod.mk.injEq] at he
      omega)]
  rw [hinv.gridchar _ _ (by omega) (by omega) (by omega) (by omega)]
  have hnotvis : ((mid u v).1, (mid u v).2) ∉ (loopState w h seq animate).visited := by
    intro hmem
    have hcell := hinv.vis_cell _ hmem
    have hc1 : (mid u v).1 % 2 = 1 := hcell.1
    have hc2 : (mid u v).2 % 2 = 1 := hcell.2.1
    omega
  constructor
  · intro hpath
    rw [ite_eq_iff] at hpath
    rcases hpath with ⟨hcond, _⟩ | ⟨_, habs⟩
    · rcases hcond with hmem | ⟨e, he, hme⟩
      · exact absurd hmem hnotvis
      · have he1 := (hinv.carving.endpoints e he).1
        have he2 := (hinv.carving.endpoints e he).2
        have hecell1 := hinv.vis_cell _ he1
        have hecell2 := hinv.vis_cell _ he2
        have headj := hinv.edges_adj e he
        rw [hmid_eta] at hme
        rcases mid_inj hecell1 hecell2 hu hv headj hadj hme with ⟨hh1, hh2⟩ | ⟨hh1, hh2⟩
        · left
          have : e = (e.1, e.2) := rfl
          rw [this, ← hh1, ← hh2] at he
          exact he
        · right
          have : e = (e.1, e.2) := rfl
          rw [this, ← hh1, ← hh2] at he
          exact he
    · exact absurd habs.symm (by decide)
  · intro hedge
    rw [if_pos]
    rcases hedge with he | he
    · exact Or.inr ⟨(u, v), he, hmid_eta⟩
    · refine Or.inr ⟨(v, u), he, ?_⟩
      show mid v u = ((mid u v).1, (mid u v).2)
      rw [hmid_eta, mid_comm]

lemma final_connected {w h : Int} (hw : 1 ≤ w) (hh : 1 ≤ h) (seq : Nat → Nat)
    (animate : Bool) :
    (passageGraph w h (mazeRun w h seq animate).grid).Connected := by
  have hinv := loopState_inv hw hh seq animate
  set G := passageGraph w h (mazeRun w h seq animate).grid with hG
  have origin : CellV w h := ⟨(1, 1), cellPos_origin hw hh⟩
  have hreach : ∀ z : CellV w h, G.Reachable ⟨(1, 1), cellPos_origin hw hh⟩ z := by
    intro z
    have hzvis : z.val ∈ (loopState w h seq animate).visited :=
      loopState_coverage hw hh seq animate z.val z.property
    have hrtg := hinv.carving.reach z.val hzvis
    have lift : ∀ p : Int × Int,
        Relation.ReflTransGen (edgeAdj (loopState w h seq animate).edges) (1, 1) p →
        ∀ hp : cellPos (w * 2 + 1) (h * 2 + 1) p,
          G.Reachable ⟨(1, 1), cellPos_origin hw hh⟩ ⟨p, hp⟩ := by
      intro p hp
      induction hp with
      | refl =>
        intro hp
        rfl
      | @tail b p hab hbp ih =>
        intro hp
        have hbvis : b ∈ (loopState w h seq animate).visited := by
          rcases hbp with he | he
          · exact (hinv.carving.endpoints _ he).1
          · exact (hinv.carving.endpoints _ he).2
        have hbcell := hinv.vis_cell _ hbvis
        have hadjbp : adjCells b p := by
          rcases hbp with he | he
          · have := hinv.edges_adj _ he
            exact this
          · have := hinv.edges_adj _ he
            exact adjCells_symm this
        have hGadj : G.Adj ⟨b, hbcell⟩ ⟨p, hp⟩ := by
          refine ⟨hadjbp, ?_⟩
          exact (final_pass_iff hw hh seq animate hbcell hp hadjbp).2 hbp
        exact (ih hbcell).trans hGadj.reachable
    have hz_eta : z = ⟨z.val, z.property⟩ := rfl
    rw [hz_eta]
    exact lift z.val hrtg z.property
  rw [SimpleGraph.connected_iff]
  constructor
  · intro u v
    exact (hreach u).symm.trans (hreach v)
  · exact ⟨⟨(1, 1), cellPos_origin hw hh⟩⟩

lemma final_acyclic {w h : Int} (hw : 1 ≤ w) (hh : 1 ≤ h) (seq : Nat → Nat)
    (animate : Bool) :
    (passageGraph w h (mazeRun w h seq animate).grid).IsAcyclic := by
  have hinv := loopState_inv hw hh seq animate
  have hacyc := hinv.carving.acyclic
  have himp : ∀ u v : CellV w h,
      (passageGraph w h (mazeRun w h seq animate).grid).Adj u v →
      (graphOf (loopState w h seq animate).edges).Adj u.val v.val := by
    rintro u v ⟨h1, h2⟩
    refine ⟨adjCells_ne h1, ?_⟩
    exact (final_pass_iff hw hh seq animate u.property v.property h1).1 h2
  let f : passageGraph w h (mazeRun w h seq animate).grid →g
      graphOf (loopState w h seq animate).edges :=
    ⟨Subtype.val, fun hadj => himp _ _ hadj⟩
  intro v c hc
  have hinj : Function.Injective f.toFun := Subtype.val_injective
  exact hacyc _ ((SimpleGraph.Walk.map_isCycle_iff_of_injective hinj).2 hc)

lemma final_passageCount {w h : Int} (hw : 1 ≤ w) (hh : 1 ≤ h) (seq : Nat → Nat)
    (animate : Bool) :
    (passageCount w h (mazeRun w h seq animate).grid : Int) = w * h - 1 := by
  have hinv := loopState_inv hw hh seq animate
  set E := (loopState w h seq animate).edges with hE
  have hperm : ((rangeList w h).filter fun p =>
      decide (midSlot (w * 2 + 1) (h * 2 + 1) p) &&
      decide (gridGet (mazeRun w h seq animate).grid p.1 p.2 = PATH)).Perm
      (E.map fun e => mid e.1 e.2) := by
    rw [List.perm_ext_iff_of_nodup (List.Nodup.filter _ (rangeList_nodup w h)) ?nodupright]
    case nodupright =>
      refine List.Nodup.map_on ?_ hinv.carving.edges_nodup
      intro e1 he1 e2 he2 hmeq
      have hc11 := hinv.vis_cell _ (hinv.carving.endpoints _ he1).1
      have hc12 := hinv.vis_cell _ (hinv.carving.endpoints _ he1).2
      have hc21 := hinv.vis_cell _ (hinv.carving.endpoints _ he2).1
      have hc22 := hinv.vis_cell _ (hinv.carving.endpoints _ he2).2
      have ha1 := hinv.edges_adj _ he1
      have ha2 := hinv.edges_adj _ he2
      rcases mid_inj hc11 hc12 hc21 hc22 ha1 ha2 hmeq with ⟨e1', e2'⟩ | ⟨e1', e2'⟩
      · have he1eta : e1 = (e1.1, e1.2) := rfl
        have he2eta : e2 = (e2.1, e2.2) := rfl
        rw [he1eta, he2eta, e1', e2']
      · have he2eta : e2 = (e2.1, e2.2) := rfl
        rw [he2eta, e1', e2'] at he2
        exact absurd he2 (hinv.carving.no_rev _ _ ((by rfl : e1 = (e1.1, e1.2)) ▸ he1))
    intro p
    rw [List.mem_filter, List.mem_map]
    constructor
    · rintro ⟨hpr, hpred⟩
      rw [Bool.and_eq_true, decide_eq_true_eq, decide_eq_true_eq] at hpred
      obtain ⟨hms, hpath⟩ := hpred
      have hms' := hms
      unfold midSlot at hms'
      have hpeta : (p.1, p.2) = p := rfl
      rw [mazeRun_eq, markEnds_gridGet_ne hw hh _
        (by
          intro he
          rw [Prod.mk.injEq] at he
          omega)
        (by
          intro he
          rw [Prod.mk.injEq] at he
          omega)] at hpath
      rw [hinv.gridchar _ _ (by omega) (by omega) (by omega) (by omega)] at hpath
      rw [ite_eq_iff] at hpath
      rcases hpath with ⟨hcond, _⟩ | ⟨_, habs⟩
      · rcases hcond with hmem | ⟨e, he, hme⟩
        · have hcell := hinv.vis_cell _ hmem
          have hc1 : p.1 % 2 = 1 := hcell.1
          have hc2 : p.2 % 2 = 1 := hcell.2.1
          omega
        · exact ⟨e, he, by rw [hme]⟩
      · exact absurd habs.symm (by decide)
    · rintro ⟨e, he, rfl⟩
      have hc1 := hinv.vis_cell _ (hinv.carving.endpoints _ he).1
      have hc2 := hinv.vis_cell _ (hinv.carving.endpoints _ he).2
      have hadj := hinv.edges_adj _ he
      have hms := midSlot_of_adj hc1 hc2 hadj
      have hms' := hms
      unfold midSlot at hms'
      constructor
      · rw [mem_rangeList]
        refine ⟨by omega, by omega, by omega, by omega⟩
      · rw [Bool.and_eq_true, decide_eq_true_eq, decide_eq_true_eq]
        refine ⟨hms, ?_⟩
        have := (final_pass_iff hw hh seq animate hc1 hc2 hadj).2
          (Or.inl ((by rfl : e = (e.1, e.2)) ▸ he))
        exact this
  have hlen : passageCount w h (mazeRun w h seq animate).grid = E.length := by
    unfold passageCount
    rw [hperm.length_eq, List.length_map]
  rw [hlen]
  exact loopState_edges_length hw hh seq animate

/-! ## Assorted helpers for the claims -/

lemma countP_eq_one_of_nodup_mem {l : List (Int × Int)} {p : Int × Int}
    (h : l.Nodup) (hm : p ∈ l) : l.countP (fun q => q = p) = 1 := by
  induction l with
  | nil => exact absurd hm (List.not_mem_nil _)
  | cons a l ih =>
    rw [List.countP_cons]
    rcases List.mem_cons.1 hm with rfl | hm'
    · have h0 : l.countP (fun q => q = p) = 0 := by
        rw [List.countP_eq_zero]
        intro q hq hq'
        rw [decide_eq_true_eq] at hq'
        subst hq'
        exact (List.nodup_cons.1 h).1 hq
      simp [h0]
    · have hne : a ≠ p := by
        rintro rfl
        exact (List.nodup_cons.1 h).1 hm'
      rw [ih (List.nodup_cons.1 h).2 hm']
      simp [hne]

/-- Both-even positions hold `WALL` in any state satisfying the
invariant. -/
lemma evenWall {gw gh : Int} {s : GenState} (hInv : GenInv gw gh s) {x y : Int}
    (hx : x % 2 = 0) (hy : y % 2 = 0) (hx0 : 0 ≤ x) (hx1 : x < gw)
    (hy0 : 0 ≤ y) (hy1 : y < gh) : gridGet s.grid x y = WALL := by
  rw [hInv.gridchar x y hx0 hx1 hy0 hy1]
  rw [if_neg]
  rintro (hmem | ⟨e, he, hme⟩)
  · have hcell := hInv.vis_cell _ hmem
    have h1 : x % 2 = 1 := hcell.1
    omega
  · have hc1 := hInv.vis_cell _ (hInv.carving.endpoints _ he).1
    have hc2 := hInv.vis_cell _ (hInv.carving.endpoints _ he).2
    have hms := midSlot_of_adj hc1 hc2 (hInv.edges_adj _ he)
    rw [hme] at hms
    have h1 : x % 2 = 1 ∧ y % 2 = 0 ∨ x % 2 = 0 ∧ y % 2 = 1 := hms.2.2.2.2
    omega

/-- Snapshot accounting: `display()` is called exactly after each visit
step (and never after a backtrack), so the snapshot count equals the
visit-step count when animating and is zero otherwise. -/
lemma snaps_eq_genStep {gw gh : Int} {animate : Bool} {seq : Nat → Nat} {s : GenState}
    (hs : s.snaps = if animate then s.visitSteps else 0) :
    (genStep gw gh animate seq s).snaps =
      if animate then (genStep gw gh animate seq s).visitSteps else 0 := by
  cases hst : s.stack with
  | nil =>
    rw [genStep_of_stack_nil hst]
    exact hs
  | cons hd rest =>
    obtain ⟨x, y⟩ := hd
    cases hn : neighborsOf gw gh s.visited x y with
    | nil =>
      rw [genStep_backtrack hst hn]
      exact hs
    | cons nb tl =>
      rw [genStep_visit hst hn]
      show (if animate then s.snaps + 1 else s.snaps) =
        if animate then s.visitSteps + 1 else 0
      cases animate with
      | true =>
        rw [if_pos rfl, if_pos rfl]
        rw [if_pos rfl] at hs
        omega
      | false =>
        rw [if_neg (by simp), if_neg (by simp)]
        rw [if_neg (by simp)] at hs
        exact hs

lemma snaps_eq_genIter {gw gh : Int} {animate : Bool} {seq : Nat → Nat} {s : GenState}
    (hs : s.snaps = if animate then s.visitSteps else 0) (n : Nat) :
    (genIter gw gh animate seq n s).snaps =
      if animate then (genIter gw gh animate seq n s).visitSteps else 0 := by
  induction n generalizing s with
  | zero => exact hs
  | succ m ih =>
    rw [genIter_succ]
    exact ih (snaps_eq_genStep hs)

/-! ## Animation-independence of everything but the snapshot count -/

/-- Forget the snapshot counter. -/
def strip (s : GenState) : GenState := { s with snaps := 0 }

lemma strip_field_eqs {s s' : GenState} (h : strip s = strip s') :
    s.grid = s'.grid ∧ s.stack = s'.stack ∧ s.visited = s'.visited ∧
    s.edges = s'.edges ∧ s.pushes = s'.pushes ∧ s.pops = s'.pops ∧
    s.visitSteps = s'.visitSteps ∧ s.backSteps = s'.backSteps ∧
    s.t = s'.t ∧ s.err = s'.err := by
  have h1 := congrArg GenState.grid h
  have h2 := congrArg GenState.stack h
  have h3 := congrArg GenState.visited h
  have h4 := congrArg GenState.edges h
  have h5 := congrArg GenState.pushes h
  have h6 := congrArg GenState.pops h
  have h7 := congrArg GenState.visitSteps h
  have h8 := congrArg GenState.backSteps h
  have h9 := congrArg GenState.t h
  have h10 := congrArg GenState.err h
  exact ⟨h1, h2, h3, h4, h5, h6, h7, h8, h9, h10⟩

lemma writeCell_grid_congr {gw gh : Int} {s s' : GenState} (h : s.grid = s'.grid)
    (x y : Int) (c : Char) :
    (writeCell gw gh s x y c).grid = (writeCell gw gh s' x y c).grid := by
  unfold writeCell
  by_cases hb : inBoundsB gw gh x y = true
  · rw [if_pos hb, if_pos hb]
    show gridSet s.grid x y c = gridSet s'.grid x y c
    rw [h]
  · rw [if_neg hb, if_neg hb]
    exact h

lemma writeCell_err_congr {gw gh : Int} {s s' : GenState} (h : s.err = s'.err)
    (x y : Int) (c : Char) :
    (writeCell gw gh s x y c).err = (writeCell gw gh s' x y c).err := by
  unfold writeCell
  by_cases hb : inBoundsB gw gh x y = true
  · rw [if_pos hb, if_pos hb]
    exact h
  · rw [if_neg hb, if_neg hb]

lemma strip_genStep {gw gh : Int} {a1 a2 : Bool} {seq : Nat → Nat} {s s' : GenState}
    (h : strip s = strip s') :
    strip (genStep gw gh a1 seq s) = strip (genStep gw gh a2 seq s') := by
  obtain ⟨hgrid, hstack, hvis, hedges, hpushes, hpops, hvsteps, hbsteps, ht, herr⟩ :=
    strip_field_eqs h
  cases hst : s.stack with
  | nil =>
    rw [genStep_of_stack_nil hst, genStep_of_stack_nil (hstack ▸ hst)]
    exact h
  | cons hd rest =>
    obtain ⟨x, y⟩ := hd
    have hst' : s'.stack = (x, y) :: rest := hstack ▸ hst
    cases hn : neighborsOf gw gh s.visited x y with
    | nil =>
      have hn' : neighborsOf gw gh s'.visited x y = [] := hvis ▸ hn
      rw [genStep_backtrack hst hn, genStep_backtrack hst' hn']
      unfold strip
      rw [GenState.mk.injEq]
      exact ⟨hgrid, rfl, hvis, hedges, hpushes, by rw [hpops], rfl, hvsteps,
        by rw [hbsteps], ht, herr⟩
    | cons nb tl =>
      have hn' : neighborsOf gw gh s'.visited x y = nb :: tl := hvis ▸ hn
      rw [genStep_visit hst hn, genStep_visit hst' hn']
      unfold strip
      rw [GenState.mk.injEq]
      rw [← ht]
      refine ⟨?_, ?_, ?_, ?_, ?_, ?_, ?_, ?_, ?_, ?_, ?_⟩
      · exact writeCell_grid_congr (writeCell_grid_congr hgrid _ _ _) _ _ _
      · rw [hstack]
      · rw [hvis]
      · rw [hedges]
      · rw [hpushes]
      · rw [writeCell_pops, writeCell_pops, writeCell_pops, writeCell_pops, hpops]
      · rfl
      · rw [hvsteps]
      · rw [writeCell_backSteps, writeCell_backSteps, writeCell_backSteps,
          writeCell_backSteps, hbsteps]
      · rfl
      · exact writeCell_err_congr (writeCell_err_congr herr _ _ _) _ _ _

lemma strip_genIter {gw gh : Int} {a1 a2 : Bool} {seq : Nat → Nat} {s s' : GenState}
    (h : strip s = strip s') (n : Nat) :
    strip (genIter gw gh a1 seq n s) = strip (genIter gw gh a2 seq n s') := by
  induction n generalizing s s' with
  | zero => exact h
  | succ m ih =>
    rw [genIter_succ, genIter_succ]
    exact ih (strip_genStep h)

lemma markEnds_grid_congr {m : Maze} {s s' : GenState} (h : s.grid = s'.grid) :
    (markEnds m s).grid = (markEnds m s').grid := by
  unfold markEnds
  exact writeCell_grid_congr (writeCell_grid_congr h _ _ _) _ _ _

lemma genStart_snaps (m : Maze) : (genStart m).snaps = 0 := by
  unfold genStart
  rw [writeCell_snaps]

lemma genStart_visitSteps (m : Maze) : (genStart m).visitSteps = 0 := by
  unfold genStart
  rw [writeCell_visitSteps]

/-- The `1 × 1` generation run, evaluated: one backtrack step and the
loop exits. -/
lemma loopState_one (seq : Nat → Nat) (animate : Bool) :
    loopState 1 1 seq animate =
      { grid := [[WALL, WALL, WALL], [WALL, PATH, WALL], [WALL, WALL, WALL]]
        stack := []
        visited := [(1, 1)]
        edges := []
        pushes := [(1, 1)]
        pops := [(1, 1)]
        snaps := 0
        visitSteps := 0
        backSteps := 1
        t := 0
        err := false } := by
  have hstep : genStep (1 * 2 + 1) (1 * 2 + 1) animate seq (genStart (Maze.init 1 1)) =
      { grid := [[WALL, WALL, WALL], [WALL, PATH, WALL], [WALL, WALL, WALL]]
        stack := []
        visited := [(1, 1)]
        edges := []
        pushes := [(1, 1)]
        pops := [(1, 1)]
        snaps := 0
        visitSteps := 0
        backSteps := 1
        t := 0
        err := false } := by
    rw [@genStep_backtrack (1 * 2 + 1) (1 * 2 + 1) animate seq (genStart (Maze.init 1 1)) 1 1 [] rfl (by decide)]
    rfl
  unfold loopState
  have hfuel : genFuel 1 1 = 3 + 1 := rfl
  rw [hfuel, genIter_succ, hstep, genIter_of_stack_nil rfl]

/-- On an invariant state, a visit step toward `(nx, ny)` through wall
slot `(x + wx, y + wy)` turns exactly those two positions from `WALL` to
`PATH` and changes nothing else. -/
lemma visit_grid_facts {gw gh : Int} {s : GenState} {x y nx ny wx wy : Int}
    {rest : List (Int × Int)}
    (hInv : GenInv gw gh s) (hs : s.stack = (x, y) :: rest)
    (hmem : (nx, ny, wx, wy) ∈ neighborsOf gw gh s.visited x y) :
    ((x + wx : Int), (y + wy : Int)) ≠ (nx, ny) ∧
    gridGet s.grid (x + wx) (y + wy) = WALL ∧
    gridGet s.grid nx ny = WALL ∧
    gridGet (gridSet (gridSet s.grid (x + wx) (y + wy) PATH) nx ny PATH) (x + wx) (y + wy)
      = PATH ∧
    gridGet (gridSet (gridSet s.grid (x + wx) (y + wy) PATH) nx ny PATH) nx ny = PATH ∧
    ∀ a b : Int, ((a : Int), (b : Int)) ≠ (x + wx, y + wy) →
      ((a : Int), (b : Int)) ≠ (nx, ny) →
      gridGet (gridSet (gridSet s.grid (x + wx) (y + wy) PATH) nx ny PATH) a b
        = gridGet s.grid a b := by
  obtain ⟨hb1, hb2, hb3, hb4, hfresh, hdir4⟩ := mem_neighborsOf.1 hmem
  have hdir : DirRel x y nx ny wx wy := hdir4
  have hxy_stack : (x, y) ∈ s.stack := by
    rw [hs]
    exact List.mem_cons_self _ _
  have hxy_vis := hInv.stack_sub _ hxy_stack
  have hxy_cell := hInv.vis_cell _ hxy_vis
  have hpx : x % 2 = 1 := hxy_cell.1
  have hpy : y % 2 = 1 := hxy_cell.2.1
  have hncell : cellPos gw gh (nx, ny) := by
    unfold DirRel at hdir
    unfold cellPos
    refine ⟨?_, ?_, ?_, ?_, ?_, ?_⟩
    · show nx % 2 = 1
      omega
    · show ny % 2 = 1
      omega
    · show 1 ≤ nx
      omega
    · show nx ≤ gw - 2
      omega
    · show 1 ≤ ny
      omega
    · show ny ≤ gh - 2
      omega
  have hn1 : nx % 2 = 1 := hncell.1
  have hn2 : ny % 2 = 1 := hncell.2.1
  have hn3 : 1 ≤ nx := hncell.2.2.1
  have hn4 : nx ≤ gw - 2 := hncell.2.2.2.1
  have hn5 : 1 ≤ ny := hncell.2.2.2.2.1
  have hn6 : ny ≤ gh - 2 := hncell.2.2.2.2.2
  have hadj := adjCells_of_dirRel hdir
  have hwall := wall_eq_mid hdir
  have hms := midSlot_of_adj hxy_cell hncell hadj
  have hmsw : midSlot gw gh ((x + wx : Int), (y + wy : Int)) := by
    rw [hwall]
    exact hms
  have hms' := hmsw
  unfold midSlot at hms'
  obtain ⟨hwb1, hwb2, hwb3, hwb4, hwpar⟩ := hms'
  have hwpar1 : (x + wx) % 2 = 1 ∧ (y + wy) % 2 = 0 ∨
      (x + wx) % 2 = 0 ∧ (y + wy) % 2 = 1 := hwpar
  have hwb1' : 1 ≤ x + wx := hwb1
  have hwb2' : x + wx ≤ gw - 2 := hwb2
  have hwb3' : 1 ≤ y + wy := hwb3
  have hwb4' : y + wy ≤ gh - 2 := hwb4
  have hne_cw : ((x + wx : Int), (y + wy : Int)) ≠ (nx, ny) := by
    intro he
    rw [Prod.mk.injEq] at he
    omega
  have hsh1 : GridShape gw gh (gridSet s.grid (x + wx) (y + wy) PATH) :=
    gridShape_set hInv.shape _ _ _
  refine ⟨hne_cw, ?_, ?_, ?_, ?_, ?_⟩
  · -- the wall slot is WALL before the step
    rw [hInv.gridchar _ _ (by omega) (by omega) (by omega) (by omega)]
    rw [if_neg]
    rintro (hmem2 | ⟨e, he, hme⟩)
    · have hcell := hInv.vis_cell _ hmem2
      have h1 : (x + wx) % 2 = 1 := hcell.1
      have h2 : (y + wy) % 2 = 1 := hcell.2.1
      omega
    · have hc1 := hInv.vis_cell _ (hInv.carving.endpoints _ he).1
      have hc2 := hInv.vis_cell _ (hInv.carving.endpoints _ he).2
      have headj := hInv.edges_adj _ he
      rw [hwall] at hme
      rcases mid_inj hc1 hc2 hxy_cell hncell headj hadj hme with ⟨h1, h2⟩ | ⟨h1, h2⟩
      · have : e = (e.1, e.2) := rfl
        rw [this, ← h1, ← h2] at he
        exact hfresh (hInv.carving.endpoints _ he).2
      · have : e = (e.1, e.2) := rfl
        rw [this, ← h1, ← h2] at he
        exact hfresh (hInv.carving.endpoints _ he).1
  · -- the chosen cell is WALL before the step
    rw [hInv.gridchar _ _ (by omega) (by omega) (by omega) (by omega)]
    rw [if_neg]
    rintro (hmem2 | ⟨e, he, hme⟩)
    · exact hfresh hmem2
    · have hc1 := hInv.vis_cell _ (hInv.carving.endpoints _ he).1
      have hc2 := hInv.vis_cell _ (hInv.carving.endpoints _ he).2
      have hmse := midSlot_of_adj hc1 hc2 (hInv.edges_adj _ he)
      rw [hme] at hmse
      have h1 : nx % 2 = 1 ∧ ny % 2 = 0 ∨ nx % 2 = 0 ∧ ny % 2 = 1 := hmse.2.2.2.2
      omega
  · rw [gridGet_set_ne (by omega) (by omega) _ hne_cw]
    exact gridGet_set_self hInv.shape (by omega) (by omega) (by omega) (by omega) _
  · exact gridGet_set_self hsh1 (by omega) (by omega) (by omega) (by omega) _
  · intro a b hna hnb
    rw [gridGet_set_ne (by omega) (by omega) _ hnb, gridGet_set_ne (by omega) (by omega) _ hna]

/-! ## Claim theorems -/

/-- The generation state after `k` iterations of the loop body. -/
def iterState (w h : Int) (seq : Nat → Nat) (animate : Bool) (k : Nat) : GenState :=
  genIter (w * 2 + 1) (h * 2 + 1) animate seq k (genStart (Maze.init w h))

lemma iterState_inv {w h : Int} (hw : 1 ≤ w) (hh : 1 ≤ h) (seq : Nat → Nat)
    (animate : Bool) (k : Nat) : GenInv (w * 2 + 1) (h * 2 + 1) (iterState w h seq animate k) :=
  genIter_inv (genStart_inv hw hh) k

lemma iterState_fuel (w h : Int) (seq : Nat → Nat) (animate : Bool) :
    iterState w h seq animate (genFuel w h) = loopState w h seq animate := rfl

/-- C1: for every `width ≥ 1`, `height ≥ 1` and every sequence of random
choices, the carved passages of the finished maze form a spanning tree of
the `width × height` grid graph: the passage graph on logical cells is
connected and acyclic, and the number of carved passages between distinct
logical cells is exactly `width · height − 1`. -/
theorem maze_spanning_tree (w h : Int) (seq : Nat → Nat) (animate : Bool)
    (hw : 1 ≤ w) (hh : 1 ≤ h) :
    (passageGraph w h (mazeRun w h seq animate).grid).Connected ∧
    (passageGraph w h (mazeRun w h seq animate).grid).IsAcyclic ∧
    (passageCount w h (mazeRun w h seq animate).grid : Int) = w * h - 1 :=
  ⟨final_connected hw hh seq animate, final_acyclic hw hh seq animate,
   final_passageCount hw hh seq animate⟩

theorem maze_spanning_tree_witness :
    (passageGraph 2 2 (mazeRun 2 2 (fun _ => 0) false).grid).Connected ∧
    (passageGraph 2 2 (mazeRun 2 2 (fun _ => 0) false).grid).IsAcyclic ∧
    (passageCount 2 2 (mazeRun 2 2 (fun _ => 0) false).grid : Int) = 2 * 2 - 1 :=
  maze_spanning_tree 2 2 (fun _ => 0) false (by norm_num) (by norm_num)

/-- C2: for every `width ≥ 1`, `height ≥ 1` and every sequence of random
choices, the generation loop terminates (the stack empties within the
iteration budget), at normal termination the visited set has size
`width · height`, and every logical cell is pushed exactly once and popped
exactly once. -/
theorem generation_terminates_coverage (w h : Int) (seq : Nat → Nat) (animate : Bool)
    (hw : 1 ≤ w) (hh : 1 ≤ h) :
    (∃ n : Nat, (iterState w h seq animate n).stack = []) ∧
    (mazeRun w h seq animate).stack = [] ∧
    ((mazeRun w h seq animate).visited.length : Int) = w * h ∧
    ∀ p : Int × Int, cellPos (w * 2 + 1) (h * 2 + 1) p →
      (mazeRun w h seq animate).pushes.countP (fun q => q = p) = 1 ∧
      (mazeRun w h seq animate).pops.countP (fun q => q = p) = 1 := by
  have hinv := loopState_inv hw hh seq animate
  have hstk := loopState_stack hw hh seq animate
  refine ⟨⟨genFuel w h, ?_⟩, ?_, ?_, ?_⟩
  · rw [iterState_fuel]
    exact hstk
  · rw [mazeRun_eq, markEnds_stack]
    exact hstk
  · rw [mazeRun_eq, markEnds_visited]
    exact loopState_visited_length hw hh seq animate
  · intro p hp
    rw [mazeRun_eq, markEnds_pushes, markEnds_pops]
    have hvis : p ∈ (loopState w h seq animate).visited :=
      loopState_coverage hw hh seq animate p hp
    have h1 : (loopState w h seq animate).pushes.countP (fun q => q = p) = 1 := by
      rw [hinv.pushes_eq]
      exact countP_eq_one_of_nodup_mem hinv.carving.vis_nodup hvis
    have hperm : (loopState w h seq animate).pushes.Perm (loopState w h seq animate).pops := by
      have h2 := hinv.pops_acc
      rw [hstk, List.nil_append] at h2
      exact h2
    exact ⟨h1, by rw [← hperm.countP_eq]; exact h1⟩

theorem generation_terminates_coverage_witness :
    (mazeRun 2 1 (fun _ => 0) true).stack = [] ∧
    ((mazeRun 2 1 (fun _ => 0) true).visited.length : Int) = 2 * 1 ∧
    (mazeRun 2 1 (fun _ => 0) true).pushes.countP
      (fun q => q = ((1 : Int), (1 : Int))) = 1 ∧
    (mazeRun 2 1 (fun _ => 0) true).pops.countP
      (fun q => q = ((1 : Int), (1 : Int))) = 1 := by
  have hthm := generation_terminates_coverage 2 1 (fun _ => 0) true
    (by norm_num) (by norm_num)
  have hp := hthm.2.2.2 (1, 1) (by decide)
  exact ⟨hthm.2.1, hthm.2.2.1, hp.1, hp.2⟩

/-- C3 (counterexample): `Maze.__init__` performs no validation, so
construction with non-positive dimensions succeeds and yields a concrete
degenerate `Maze` — it does not fail with a `ConfigurationError` (no such
error exists in the code). -/
theorem init_nonpositive_succeeds :
    Maze.init 0 0 = Maze.mk 0 0 1 1 [[WALL]] (1, 1) (-1, -1) := rfl

/-- C3 (amended): construction is total and never validates: for every
`width` and `height` — non-positive included — `Maze.init` succeeds and
just stores the fields computed by the source formulas. -/
theorem init_total_no_validation (wd ht : Int) :
    (Maze.init wd ht).width = wd ∧ (Maze.init wd ht).height = ht ∧
    (Maze.init wd ht).grid_w = wd * 2 + 1 ∧ (Maze.init wd ht).grid_h = ht * 2 + 1 ∧
    (Maze.init wd ht).grid = List.replicate (ht * 2 + 1).toNat
      (List.replicate (wd * 2 + 1).toNat WALL) ∧
    (Maze.init wd ht).start = (1, 1) ∧
    (Maze.init wd ht).endp = (wd * 2 + 1 - 2, ht * 2 + 1 - 2) :=
  ⟨rfl, rfl, rfl, rfl, rfl, rfl, rfl⟩

/-- C4: throughout generation (every iterate of the loop) and in the
finished maze, every in-range grid position with both coordinates even
holds `WALL`. -/
theorem even_positions_always_wall (w h : Int) (seq : Nat → Nat) (animate : Bool)
    (k : Nat) (x y : Int) (hw : 1 ≤ w) (hh : 1 ≤ h)
    (hx : x % 2 = 0) (hy : y % 2 = 0) (hx0 : 0 ≤ x) (hx1 : x < w * 2 + 1)
    (hy0 : 0 ≤ y) (hy1 : y < h * 2 + 1) :
    gridGet (iterState w h seq animate k).grid x y = WALL ∧
    gridGet (mazeRun w h seq animate).grid x y = WALL := by
  constructor
  · exact evenWall (iterState_inv hw hh seq animate k) hx hy hx0 hx1 hy0 hy1
  · rw [mazeRun_eq]
    rw [markEnds_gridGet_ne hw hh _
      (by
        intro he
        rw [Prod.mk.injEq] at he
        omega)
      (by
        intro he
        rw [Prod.mk.injEq] at he
        omega)]
    exact evenWall (loopState_inv hw hh seq animate) hx hy hx0 hx1 hy0 hy1

theorem even_positions_always_wall_witness :
    gridGet (iterState 1 1 (fun _ => 0) true 0).grid 0 0 = WALL ∧
    gridGet (mazeRun 1 1 (fun _ => 0) true).grid 0 0 = WALL :=
  even_positions_always_wall 1 1 (fun _ => 0) true 0 0 0 (by norm_num) (by norm_num)
    (by norm_num) (by norm_num) (by norm_num) (by norm_num) (by norm_num) (by norm_num)

/-- C5 (counterexample): on the `1 × 1` maze with animation enabled the
run makes one backtrack step and no visit step, yet emits zero snapshots,
so the number of emissions does not equal the number of visit plus
backtrack steps. -/
theorem snapshot_missing_after_backtrack :
    ¬ ((mazeRun 1 1 (fun _ => 0) true).snaps =
       (mazeRun 1 1 (fun _ => 0) true).visitSteps +
       (mazeRun 1 1 (fun _ => 0) true).backSteps) := by
  rw [mazeRun_eq, markEnds_snaps, markEnds_visitSteps, markEnds_backSteps, loopState_one]
  decide

/-- C5 (amended): when animation is enabled a snapshot is emitted after
each visit step and after no backtrack step, so the number of emissions
equals the number of visit steps; with animation disabled nothing is
emitted. -/
theorem snapshot_after_visit_only (w h : Int) (seq : Nat → Nat) (animate : Bool) :
    (mazeRun w h seq animate).snaps =
      if animate then (mazeRun w h seq animate).visitSteps else 0 := by
  rw [mazeRun_eq, markEnds_snaps, markEnds_visitSteps]
  refine snaps_eq_genIter ?_ _
  rw [genStart_snaps, genStart_visitSteps]
  cases animate
  · rfl
  · rfl

/-- C6: generation is deterministic under fixed randomness: with the
same dimensions and the same predetermined choice sequence, two runs of
`generate` produce byte-identical grids — even if one run animates and
the other does not. -/
theorem generation_deterministic (w h : Int) (seq : Nat → Nat) (a1 a2 : Bool) :
    (mazeRun w h seq a1).grid = (mazeRun w h seq a2).grid := by
  rw [mazeRun_eq, mazeRun_eq]
  refine markEnds_grid_congr ?_
  have hst : strip (loopState w h seq a1) = strip (loopState w h seq a2) := by
    unfold loopState
    exact strip_genIter rfl _
  have hg := congrArg GenState.grid hst
  exact hg

/-- C7: for `width = 1` and `height = 1`, whatever the random choices,
the maze has a single logical cell, zero carved passages between distinct
cells, and the start position equals the end position. -/
theorem one_by_one_maze (seq : Nat → Nat) (animate : Bool) :
    passageCount 1 1 (mazeRun 1 1 seq animate).grid = 0 ∧
    (mazeRun 1 1 seq animate).visited = [(1, 1)] ∧
    cellList 1 1 = [(1, 1)] ∧
    (Maze.init 1 1).start = (Maze.init 1 1).endp := by
  rw [mazeRun_eq, loopState_one]
  refine ⟨by decide, ?_, by decide, by decide⟩
  rw [markEnds_visited]

/-- C8: once started, generation cannot fail internally: for every
`width ≥ 1`, `height ≥ 1` and every sequence of random choices, every
grid write stays within the `(2·width+1) × (2·height+1)` bounds — at
every iterate of the loop and through endpoint marking the out-of-bounds
flag stays `false`. -/
theorem generation_no_internal_failure (w h : Int) (seq : Nat → Nat) (animate : Bool)
    (hw : 1 ≤ w) (hh : 1 ≤ h) :
    (mazeRun w h seq animate).err = false ∧
    ∀ k : Nat, (iterState w h seq animate k).err = false := by
  constructor
  · rw [mazeRun_eq, markEnds_err hw hh]
    exact (loopState_inv hw hh seq animate).err_false
  · intro k
    exact (iterState_inv hw hh seq animate k).err_false

theorem generation_no_internal_failure_witness :
    (mazeRun 2 1 (fun _ => 0) false).err = false ∧
    (iterState 2 1 (fun _ => 0) false 5).err = false := by
  have hthm := generation_no_internal_failure 2 1 (fun _ => 0) false
    (by norm_num) (by norm_num)
  exact ⟨hthm.1, hthm.2 5⟩

/-- C9: endpoint marking writes `START` first and `ENDC` second, at the
fixed positions `(1, 1)` and `(grid_w − 2, grid_h − 2)`; consequently on
the `1 × 1` maze the two positions coincide, the `E` overwrites the `S`,
and the final grid contains an End cell but no Start cell. -/
theorem end_overwrites_start_one_by_one (seq : Nat → Nat) (animate : Bool) :
    (∀ (m : Maze) (s : GenState), markEnds m s =
      writeCell m.grid_w m.grid_h (writeCell m.grid_w m.grid_h s 1 1 START)
        (m.grid_w - 2) (m.grid_h - 2) ENDC) ∧
    gridGet (mazeRun 1 1 seq animate).grid 1 1 = ENDC ∧
    (∀ row ∈ (mazeRun 1 1 seq animate).grid, START ∉ row) ∧
    (∃ row ∈ (mazeRun 1 1 seq animate).grid, ENDC ∈ row) := by
  refine ⟨fun m s => rfl, ?_, ?_, ?_⟩
  · rw [mazeRun_eq, loopState_one]
    decide
  · rw [mazeRun_eq, loopState_one]
    decide
  · rw [mazeRun_eq, loopState_one]
    decide

/-- C10: at any reachable state of the loop, a backtrack step changes no
grid position; a visit step changes exactly the chosen cell and the wall
slot between it and the current cell, both from `WALL` to `PATH`, and
nothing else; consequently `PATH` positions only accumulate. -/
theorem carve_step_frame (w h : Int) (seq : Nat → Nat) (animate : Bool) (k : Nat)
    (hw : 1 ≤ w) (hh : 1 ≤ h) :
    (∀ x y : Int, ∀ rest : List (Int × Int),
      (iterState w h seq animate k).stack = (x, y) :: rest →
      neighborsOf (w * 2 + 1) (h * 2 + 1) (iterState w h seq animate k).visited x y = [] →
      (genStep (w * 2 + 1) (h * 2 + 1) animate seq (iterState w h seq animate k)).grid =
        (iterState w h seq animate k).grid) ∧
    (∀ x y nx ny wx wy : Int, ∀ rest : List (Int × Int),
      ∀ nb : Int × Int × Int × Int, ∀ tl : List (Int × Int × Int × Int),
      (iterState w h seq animate k).stack = (x, y) :: rest →
      neighborsOf (w * 2 + 1) (h * 2 + 1) (iterState w h seq animate k).visited x y =
        nb :: tl →
      (nb :: tl).getD (seq (iterState w h seq animate k).t % (nb :: tl).length) nb =
        (nx, ny, wx, wy) →
      (((x + wx : Int), (y + wy : Int)) ≠ (nx, ny) ∧
       gridGet (iterState w h seq animate k).grid (x + wx) (y + wy) = WALL ∧
       gridGet (iterState w h seq animate k).grid nx ny = WALL ∧
       gridGet (genStep (w * 2 + 1) (h * 2 + 1) animate seq
         (iterState w h seq animate k)).grid (x + wx) (y + wy) = PATH ∧
       gridGet (genStep (w * 2 + 1) (h * 2 + 1) animate seq
         (iterState w h seq animate k)).grid nx ny = PATH ∧
       ∀ a b : Int, ((a : Int), (b : Int)) ≠ (x + wx, y + wy) →
         ((a : Int), (b : Int)) ≠ (nx, ny) →
         gridGet (genStep (w * 2 + 1) (h * 2 + 1) animate seq
           (iterState w h seq animate k)).grid a b =
           gridGet (iterState w h seq animate k).grid a b)) ∧
    (∀ a b : Int, gridGet (iterState w h seq animate k).grid a b = PATH →
      gridGet (genStep (w * 2 + 1) (h * 2 + 1) animate seq
        (iterState w h seq animate k)).grid a b = PATH) := by
  have hinv := iterState_inv hw hh seq animate k
  refine ⟨?_, ?_, ?_⟩
  · intro x y rest hs hn
    rw [genStep_backtrack hs hn]
  · intro x y nx ny wx wy rest nb tl hs hn hch
    have hcm : (nx, ny, wx, wy) ∈ neighborsOf (w * 2 + 1) (h * 2 + 1)
        (iterState w h seq animate k).visited x y := by
      rw [← hch, hn]
      exact getD_mem_cons _ _ _
    have hfacts := visit_grid_facts hinv hs hcm
    have hgrid : (genStep (w * 2 + 1) (h * 2 + 1) animate seq
        (iterState w h seq animate k)).grid =
        gridSet (gridSet (iterState w h seq animate k).grid (x + wx) (y + wy) PATH)
          nx ny PATH := by
      rw [genStep_visit hs hn, hch]
      show (writeCell (w * 2 + 1) (h * 2 + 1)
        (writeCell (w * 2 + 1) (h * 2 + 1) (iterState w h seq animate k)
          (x + (nx, ny, wx, wy).2.2.1) (y + (nx, ny, wx, wy).2.2.2) PATH)
        (nx, ny, wx, wy).1 (nx, ny, wx, wy).2.1 PATH).grid = _
      obtain ⟨hb1, hb2, hb3, hb4, hfresh, hdir4⟩ := mem_neighborsOf.1 hcm
      have hdir : DirRel x y nx ny wx wy := hdir4
      have hxy_stack : (x, y) ∈ (iterState w h seq animate k).stack := by
        rw [hs]
        exact List.mem_cons_self _ _
      have hxy_cell := hinv.vis_cell _ (hinv.stack_sub _ hxy_stack)
      have hncell : cellPos (w * 2 + 1) (h * 2 + 1) (nx, ny) := by
        have hpx : x % 2 = 1 := hxy_cell.1
        have hpy : y % 2 = 1 := hxy_cell.2.1
        unfold DirRel at hdir
        unfold cellPos
        refine ⟨?_, ?_, ?_, ?_, ?_, ?_⟩
        · show nx % 2 = 1
          omega
        · show ny % 2 = 1
          omega
        · show 1 ≤ nx
          omega
        · show nx ≤ w * 2 + 1 - 2
          omega
        · show 1 ≤ ny
          omega
        · show ny ≤ h * 2 + 1 - 2
          omega
      have hwall := wall_eq_mid hdir
      have hms := midSlot_of_adj hxy_cell hncell (adjCells_of_dirRel hdir)
      have hmsw : midSlot (w * 2 + 1) (h * 2 + 1) ((x + wx : Int), (y + wy : Int)) := by
        rw [hwall]
        exact hms
      unfold midSlot at hmsw
      obtain ⟨hq1, hq2, hq3, hq4, _⟩ := hmsw
      have hq1' : 1 ≤ x + wx := hq1
      have hq2' : x + wx ≤ w * 2 + 1 - 2 := hq2
      have hq3' : 1 ≤ y + wy := hq3
      have hq4' : y + wy ≤ h * 2 + 1 - 2 := hq4
      have hn3 : 1 ≤ nx := hncell.2.2.1
      have hn4 : nx ≤ w * 2 + 1 - 2 := hncell.2.2.2.1
      have hn5 : 1 ≤ ny := hncell.2.2.2.2.1
      have hn6 : ny ≤ h * 2 + 1 - 2 := hncell.2.2.2.2.2
      show (writeCell (w * 2 + 1) (h * 2 + 1)
        (writeCell (w * 2 + 1) (h * 2 + 1) (iterState w h seq animate k)
          (x + wx) (y + wy) PATH) nx ny PATH).grid = _
      rw [writeCell_grid_of_inBounds _ _ _ _ _ _ (by rw [inBoundsB_iff]; omega)]
      rw [writeCell_grid_of_inBounds _ _ _ _ _ _ (by rw [inBoundsB_iff]; omega)]
    rw [hgrid]
    exact hfacts
  · intro a b hpath
    cases hs : (iterState w h seq animate k).stack with
    | nil =>
      rw [genStep_of_stack_nil hs]
      exact hpath
    | cons hd rest =>
      obtain ⟨x, y⟩ := hd
      cases hn : neighborsOf (w * 2 + 1) (h * 2 + 1) (iterState w h seq animate k).visited
          x y with
      | nil =>
        rw [genStep_backtrack hs hn]
        exact hpath
      | cons nb tl =>
        rw [genStep_visit hs hn]
        generalize hgc : (nb :: tl).getD
          (seq (iterState w h seq animate k).t % (nb :: tl).length) nb = c
        have hcm : c ∈ neighborsOf (w * 2 + 1) (h * 2 + 1)
            (iterState w h seq animate k).visited x y := by
          rw [← hgc, hn]
          exact getD_mem_cons _ _ _
        obtain ⟨nx, ny, wx, wy⟩ := c
        have hfacts := visit_grid_facts hinv hs hcm
        obtain ⟨hb1, hb2, hb3, hb4, hfresh, hdir4⟩ := mem_neighborsOf.1 hcm
        have hdir : DirRel x y nx ny wx wy := hdir4
        have hxy_stack : (x, y) ∈ (iterState w h seq animate k).stack := by
          rw [hs]
          exact List.mem_cons_self _ _
        have hxy_cell := hinv.vis_cell _ (hinv.stack_sub _ hxy_stack)
        have hncell : cellPos (w * 2 + 1) (h * 2 + 1) (nx, ny) := by
          have hpx : x % 2 = 1 := hxy_cell.1
          have hpy : y % 2 = 1 := hxy_cell.2.1
          unfold DirRel at hdir
          unfold cellPos
          refine ⟨?_, ?_, ?_, ?_, ?_, ?_⟩
          · show nx % 2 = 1
            omega
          · show ny % 2 = 1
            omega
          · show 1 ≤ nx
            omega
          · show nx ≤ w * 2 + 1 - 2
            omega
          · show 1 ≤ ny
            omega
          · show ny ≤ h * 2 + 1 - 2
            omega
        have hwall := wall_eq_mid hdir
        have hmsw : midSlot (w * 2 + 1) (h * 2 + 1) ((x + wx : Int), (y + wy : Int)) := by
          rw [hwall]
          exact midSlot_of_adj hxy_cell hncell (adjCells_of_dirRel hdir)
        unfold midSlot at hmsw
        have hn3 : 1 ≤ nx := hncell.2.2.1
        have hn4 : nx ≤ w * 2 + 1 - 2 := hncell.2.2.2.1
        have hn5 : 1 ≤ ny := hncell.2.2.2.2.1
        have hn6 : ny ≤ h * 2 + 1 - 2 := hncell.2.2.2.2.2
        have hgridw : (writeCell (w * 2 + 1) (h * 2 + 1)
            (writeCell (w * 2 + 1) (h * 2 + 1) (iterState w h seq animate k)
              (x + wx) (y + wy) PATH) nx ny PATH).grid =
            gridSet (gridSet (iterState w h seq animate k).grid (x + wx) (y + wy) PATH)
              nx ny PATH := by
          rw [writeCell_grid_of_inBounds _ _ _ _ _ _ (by rw [inBoundsB_iff]; omega)]
          rw [writeCell_grid_of_inBounds _ _ _ _ _ _ (by rw [inBoundsB_iff]; omega)]
        show gridGet (writeCell (w * 2 + 1) (h * 2 + 1)
            (writeCell (w * 2 + 1) (h * 2 + 1) (iterState w h seq animate k)
              (x + (nx, ny, wx, wy).2.2.1) (y + (nx, ny, wx, wy).2.2.2) PATH)
            (nx, ny, wx, wy).1 (nx, ny, wx, wy).2.1 PATH).grid a b = PATH
        show gridGet (writeCell (w * 2 + 1) (h * 2 + 1)
            (writeCell (w * 2 + 1) (h * 2 + 1) (iterState w h seq animate k)
              (x + wx) (y + wy) PATH) nx ny PATH).grid a b = PATH
        rw [hgridw]
        by_cases hab1 : ((a : Int), (b : Int)) = ((nx : Int), (ny : Int))
        · rw [Prod.mk.injEq] at hab1
          obtain ⟨rfl, rfl⟩ := hab1
          exact hfacts.2.2.2.2.1
        · by_cases hab2 : ((a : Int), (b : Int)) = ((x + wx : Int), (y + wy : Int))
          · rw [Prod.mk.injEq] at hab2
            obtain ⟨rfl, rfl⟩ := hab2
            exact hfacts.2.2.2.1
          · rw [hfacts.2.2.2.2.2 a b hab2 hab1]
            exact hpath

theorem carve_step_frame_witness :
    (genStep (1 * 2 + 1) (1 * 2 + 1) false (fun _ => 0)
      (iterState 1 1 (fun _ => 0) false 0)).grid = (iterState 1 1 (fun _ => 0) false 0).grid :=
  (carve_step_frame 1 1 (fun _ => 0) false 0 (by norm_num) (by norm_num)).1 1 1 []
    (by decide) (by decide)
